import Mathlib

/-
  Verification development for the hand-history parsing and position-inference
  engine of this repository (backend/replayer_parser.py).

  The Python code is shallowly embedded: every definition below is translated
  from a concrete function or code region of backend/replayer_parser.py.
  Conventions of the embedding:
  * Python floats (monetary amounts) are modelled as rationals (ℚ); the code
    only ever parses decimal literals, divides, and rounds, so values stay
    rational.  Python `round(x, 1)` (round half to even) is `pyRound1`.
  * Python dicts are modelled as association-style lookups in which a later
    assignment overwrites an earlier one (`pyDict`, `posUpd`, `dictSet`).
  * Python string truthiness (`if s:` for `s` an Optional[str]) is
    `optStrTruthy`: true exactly for a present, non-empty string.
  * Python `sorted` is a stable sort; `stableSortBy` is a stable insertion
    sort, which agrees with any stable sort for the same key function.
  * Python set iteration order is implementation defined; the set
    `all_player_names` of parse_for_replayer is modelled as a
    first-occurrence deduplicated list (`pyDedup`).  All properties proved
    about it below are independent of the enumeration order.
  * A Python statement that raises an uncaught exception (a KeyError on a
    missing dict key) is modelled by an `Option` result, `none` meaning the
    exception.
-/

namespace Replayer

/-- One seat occupant, as built by extract_players_with_stacks and mutated by
the later passes of parse_for_replayer.  `stack` is an `Option` because the
smart-seating pass of parse_for_replayer sets `stack = None` for players that
appear only in the action log (extracted players always carry `some` stack). -/
structure Player where
  name : String
  seatIndex : Nat
  isHero : Bool
  cards : Option (List String)
  isActive : Bool
  stack : Option ℚ
  position : String
deriving DecidableEq, Repr, Inhabited

/-- One action row, as built by extract_actions: `action` is the normalized
action string ("folds", "checks", "calls", "bets", "raiseTo", "raise",
"all-in", "posts_sb", "posts_bb"), `street` one of "preflop", "flop",
"turn", "river", "showdown". -/
structure Action where
  player : String
  action : String
  amount : Option ℚ
  street : String
deriving DecidableEq, Repr, Inhabited

/-- The assembled output of parse_for_replayer (its final dict literal). -/
structure HandState where
  players : List Player
  board : List String
  pot : ℚ
  street : String
  sb : Option ℚ
  bb : Option ℚ
  dealerSeat : Option Int
  actions : List Action
deriving DecidableEq, Repr, Inhabited

/-- Placeholder player used only for `List.getD` defaults at indices that the
source code guarantees to be in range. -/
def dummyPlayer : Player := ⟨"", 0, false, none, true, none, ""⟩

/-- Truthiness of a Python Optional[str]: `None` and `""` are falsy. -/
def optStrTruthy : Option String → Bool
  | none => false
  | some s => s ≠ ""

/-- Python dict built by successive assignments `d[keyf x] = valf x` over a
list; a later assignment overwrites an earlier one. -/
def pyDict {α κ β : Type} [DecidableEq κ] (keyf : α → κ) (valf : α → β)
    (l : List α) : κ → Option β :=
  l.foldl (fun m p => fun x => if x = keyf p then some (valf p) else m x)
    (fun _ => none)

/-- Stable insertion of `a` into `l`, before the first element of strictly
larger key; equal keys keep `a` in front (used under `foldr`, which makes the
overall sort stable, i.e. it agrees with Python `sorted(key=...)`). -/
def insertByKey {α : Type} (key : α → Nat) (a : α) : List α → List α
  | [] => [a]
  | b :: t => if key a ≤ key b then a :: b :: t else b :: insertByKey key a t

/-- Stable sort by a `Nat` key: the model of Python `sorted(l, key=...)`. -/
def stableSortBy {α : Type} (key : α → Nat) (l : List α) : List α :=
  l.foldr (insertByKey key) []

/-- First-occurrence deduplication: the model of the Python set
`all_player_names` (set iteration order is unspecified in Python; all results
proved below are independent of this choice of order). -/
def pyDedup (l : List String) : List String :=
  l.foldl (fun acc n => if n ∈ acc then acc else acc ++ [n]) []

/-- Exact floor of a rational (Rat.floor without the FloorRing instance, so
that it evaluates). -/
def ratFloor (x : ℚ) : ℤ := x.num / (x.den : ℤ)

/-- Python `round` to an integer: round half to even (banker's rounding).
The Python code applies it to binary floats; the claims below only evaluate it
away from ties, where the rational and float results agree. -/
def pyRoundInt (x : ℚ) : ℤ :=
  let f : ℤ := ratFloor x
  let r : ℚ := x - (f : ℚ)
  if r < 1/2 then f
  else if 1/2 < r then f + 1
  else if f % 2 = 0 then f else f + 1

/-- Python `round(x, 1)`: the rounding used by the stack/pot normalization of
parse_for_replayer (lines 956-962). -/
def pyRound1 (x : ℚ) : ℚ := (pyRoundInt (10 * x) : ℚ) / 10

/-! ## calculate_poker_positions (replayer_parser.py lines 429-558) -/

/-- The scan of the action list for the small-blind poster
(calculate_poker_positions lines 452-458; a later post overwrites an earlier
one; the bb_player computed alongside it is never used by the function). -/
def sbPlayerOf (actions : List Action) : Option String :=
  actions.foldl
    (fun acc a =>
      if a.action = "posts_sb" ∨ a.action = "posts_small_blind" then some a.player
      else acc)
    none

/-- One dict assignment `positions[k] = v` of calculate_poker_positions. -/
def posUpd (m : String → Option String) (k v : String) : String → Option String :=
  fun x => if x = k then some v else m x

/-- The empty `positions` dict. -/
def emptyPos : String → Option String := fun _ => none

/-- The label-assignment cascade of calculate_poker_positions
(lines 499-556): one branch per table size, each a sequence of dict
assignments `positions[ring_order[i]] = label`; sizes above 9 get the extra
loop assigning "UTG+k". A table size of 0 or 1 matches no branch, leaving the
dict empty. -/
def assignPositions (ring : List String) (n : Nat) : String → Option String :=
  let r := fun i => ring.getD i ""
  if n = 2 then
    posUpd (posUpd emptyPos (r 0) "BTN/SB") (r 1) "BB"
  else if n = 3 then
    posUpd (posUpd (posUpd emptyPos (r 0) "BTN") (r 1) "SB") (r 2) "BB"
  else if n = 4 then
    posUpd (posUpd (posUpd (posUpd emptyPos (r 0) "BTN") (r 1) "SB") (r 2) "BB") (r 3) "CO"
  else if n = 5 then
    posUpd (posUpd (posUpd (posUpd (posUpd emptyPos
      (r 0) "BTN") (r 1) "SB") (r 2) "BB") (r 3) "UTG") (r 4) "CO"
  else if n = 6 then
    posUpd (posUpd (posUpd (posUpd (posUpd (posUpd emptyPos
      (r 0) "BTN") (r 1) "SB") (r 2) "BB") (r 3) "UTG") (r 4) "HJ") (r 5) "CO"
  else if n = 7 then
    posUpd (posUpd (posUpd (posUpd (posUpd (posUpd (posUpd emptyPos
      (r 0) "BTN") (r 1) "SB") (r 2) "BB") (r 3) "UTG") (r 4) "UTG+1") (r 5) "HJ") (r 6) "CO"
  else if n = 8 then
    posUpd (posUpd (posUpd (posUpd (posUpd (posUpd (posUpd (posUpd emptyPos
      (r 0) "BTN") (r 1) "SB") (r 2) "BB") (r 3) "UTG") (r 4) "UTG+1") (r 5) "LJ")
      (r 6) "HJ") (r 7) "CO"
  else if 9 ≤ n then
    let base :=
      posUpd (posUpd (posUpd (posUpd (posUpd (posUpd (posUpd (posUpd (posUpd emptyPos
        (r 0) "BTN") (r 1) "SB") (r 2) "BB") (r 3) "UTG") (r 4) "UTG+1") (r 5) "UTG+2")
        (r 6) "LJ") (r 7) "HJ") (r 8) "CO"
    (List.range (n - 9)).foldl
      (fun m k => posUpd m (r (9 + k)) ("UTG+" ++ toString (7 + k))) base
  else emptyPos

/-- The dead-button inference of calculate_poker_positions (lines 465-482
before the last resort): `if not btn_player and sb_player:` with string
truthiness; the button is the player immediately preceding the seat-sorted
index of the SB poster, with Python's `%` on the possibly negative
`sb_idx - 1` (hence `Int.emod`).  The outer `none` is the KeyError raised by
`name_to_seat[sb_player]` when the SB poster has no seat. -/
def deadButtonFallback (sortedPlayers : List Player) (nameToSeat : String → Option Nat)
    (numPlayers : Nat) (sbPlayer : Option String) (btnPlayer0 : Option String) :
    Option (Option String) :=
  if optStrTruthy btnPlayer0 then some btnPlayer0
  else
    match sbPlayer with
    | some sbp =>
      if sbp ≠ "" then
        match nameToSeat sbp with
        | some sbSeat =>
          let sbIdx := sortedPlayers.findIdx (fun p => p.seatIndex = sbSeat)
          let btnIdx := (((sbIdx : Int) - 1).emod (numPlayers : Int)).toNat
          some (some ((sortedPlayers.getD btnIdx dummyPlayer).name))
        | none => none
      else some btnPlayer0
    | none => some btnPlayer0

/-- The ring-order construction of calculate_poker_positions (lines 484-491):
seat of the button player, its index in the seat-sorted list, then the names
walked from there with wraparound.  `btn_player` is always the name of a
sorted player at this point, so the name_to_seat lookup cannot fail (the
`getD 0` default is never taken). -/
def ringFrom (sortedPlayers : List Player) (nameToSeat : String → Option Nat)
    (numPlayers : Nat) (btnPlayer : String) : List String :=
  let btnSeat := (nameToSeat btnPlayer).getD 0
  let btnIdx := sortedPlayers.findIdx (fun p => p.seatIndex = btnSeat)
  (List.range numPlayers).map
    (fun i => (sortedPlayers.getD ((btnIdx + i) % numPlayers) dummyPlayer).name)

/-- `btn_player = seat_to_name[dealer_seat]` when the declared seat is
occupied (calculate_poker_positions lines 466-468). -/
def declaredButton (seatToName : Nat -> Option String) : Option Nat -> Option String
  | some d => seatToName d
  | none => none

/-- The tail of calculate_poker_positions (lines 480-558) once the
dead-button inference has produced a (possibly falsy) button player: the last
resort of lines 480-482 (`if not btn_player:` takes the first player in
seat-sorted order), then the ring construction and label assignment. -/
def calcWithButton (sortedPlayers : List Player) (nameToSeat : String → Option Nat)
    (numPlayers : Nat) (btnPlayerOpt : Option String) : String → Option String :=
  let btnPlayer : String :=
    if optStrTruthy btnPlayerOpt then btnPlayerOpt.getD ""
    else (sortedPlayers.getD 0 dummyPlayer).name
  assignPositions (ringFrom sortedPlayers nameToSeat numPlayers btnPlayer) numPlayers

/-- calculate_poker_positions (lines 429-558).  Returns `none` for the one
uncaught-exception path of the function: the KeyError raised by
`name_to_seat[sb_player]` when the small-blind poster is not among the seated
players; otherwise `some` of the positions dict. -/
def calculate_poker_positions (players : List Player) (dealer_seat : Option Nat)
    (actions : List Action) : Option (String → Option String) :=
  if players = [] then some emptyPos
  else
    let numPlayers := players.length
    let sortedPlayers := stableSortBy (fun p => p.seatIndex) players
    let seatToName := pyDict (fun p => p.seatIndex) (fun p => p.name) sortedPlayers
    let nameToSeat := pyDict (fun p => p.name) (fun p => p.seatIndex) sortedPlayers
    (deadButtonFallback sortedPlayers nameToSeat numPlayers (sbPlayerOf actions)
        (declaredButton seatToName dealer_seat)).map
      (calcWithButton sortedPlayers nameToSeat numPlayers)

/-- Lookup of a name in the (possibly failed) positions dict. -/
def posOf (res : Option (String → Option String)) (name : String) : Option String :=
  match res with
  | none => none
  | some m => m name

/-! ## infer_implicit_folds (replayer_parser.py lines 561-763) -/

/-- The per-hand ring data of infer_implicit_folds: name_to_seat,
seat_to_player (both Python dicts, later entry wins) and the sorted seat
list. -/
structure RingCtx where
  nameToSeat : String → Option Nat
  seatToPlayer : Nat → Option Player
  sortedSeats : List Nat

/-- The `status` dict of infer_implicit_folds: every seated player starts
"active"; assignments are total-function overrides (the code only ever reads
the status of seated players, which are all initialized). -/
def initialStatus : String → String := fun _ => "active"

/-- `get_next_seat` (lines 587-595): starting after `cur` in the sorted seat
ring, the first seat whose occupant's status is "active", or `None` after one
full loop.  `indexOf` matches Python `list.index`; the code only calls it on
members of `sorted_seats`. -/
def get_next_seat (ctx : RingCtx) (status : String → String) (cur : Nat) : Option Nat :=
  let len := ctx.sortedSeats.length
  let start := ctx.sortedSeats.indexOf cur
  (List.range len).findSome? fun k =>
    let idx := (start + 1 + k) % len
    match ctx.sortedSeats.getD idx 0, ctx.seatToPlayer (ctx.sortedSeats.getD idx 0) with
    | s, some p => if status p.name = "active" then some s else none
    | _, none => none

/-- The grouping of actions into contiguous per-street chunks
(lines 604-615): starting street "preflop", a chunk is flushed whenever the
street changes, and the final chunk is always flushed. -/
def groupStreetsGo (cur : String) (chunk : List Action) :
    List Action → List (String × List Action)
  | [] => [(cur, chunk)]
  | a :: rest =>
    if a.street ≠ cur then (cur, chunk) :: groupStreetsGo a.street [a] rest
    else groupStreetsGo cur (chunk ++ [a]) rest

/-- `measure_streets` of infer_implicit_folds. -/
def groupStreets (actions : List Action) : List (String × List Action) :=
  groupStreetsGo "preflop" [] actions

/-- The status updates after appending an action (lines 702-705, 749-752):
"folds" marks the actor folded, "all-in" marks it all-in. -/
def updStatus (status : String → String) (a : Action) : String → String :=
  if a.action = "folds" then fun n => if n = a.player then "folded" else status n
  else if a.action = "all-in" then fun n => if n = a.player then "all-in" else status n
  else status

/-- The skipped-player while loop (lines 718-744), fuelled by its own
`loop_count < len(sorted_seats)` bound.  Each iteration looks at the expected
seat; if its occupant does not act at or after the position of the current
action in the chunk (`chunk.index(action)`, first structural match, then a
scan of the remainder of the chunk), a synthetic fold is emitted and the
occupant marked folded; then the cursor advances with the updated status. -/
def insertFoldsLoop (ctx : RingCtx) (chunk : List Action) (street : String)
    (a : Action) (actualSeat : Nat) :
    Nat → (String → String) → Option Nat → List Action × (String → String) × Option Nat
  | 0, st, e => ([], st, e)
  | fuel + 1, st, e =>
    match e with
    | none => ([], st, none)
    | some es =>
      if es = actualSeat then ([], st, some es)
      else
        let skippedName := ((ctx.seatToPlayer es).getD dummyPlayer).name
        let curIdx := chunk.findIdx (fun b => b = a)
        let actsLater := (chunk.drop curIdx).any (fun fa => fa.player = skippedName)
        let ins : List Action :=
          if actsLater then [] else [⟨skippedName, "folds", none, street⟩]
        let st' : String → String :=
          if actsLater then st
          else fun n => if n = skippedName then "folded" else st n
        let e' := get_next_seat ctx st' es
        let r := insertFoldsLoop ctx chunk street a actualSeat fuel st' e'
        (ins ++ r.1, r.2.1, r.2.2)

/-- Handling of one action of a chunk (lines 680-755).  Returns the emitted
output (any synthetic folds, then the action itself), the updated status and
the updated expected-seat cursor.  Blind posts pass through untouched; an
actor without a seat, or a missing cursor, passes through with status updates
only (the cursor restarting after the actor when it is seated); otherwise the
skipped-player loop runs first. -/
def handleAction (ctx : RingCtx) (street : String) (chunk : List Action)
    (st : String → String) (e : Option Nat) (a : Action) :
    List Action × (String → String) × Option Nat :=
  if a.action = "posts_sb" ∨ a.action = "posts_bb" then ([a], st, e)
  else
    match ctx.nameToSeat a.player, e with
    | none, _ => ([a], updStatus st a, e)
    | some s, none => ([a], updStatus st a, get_next_seat ctx (updStatus st a) s)
    | some s, some es =>
      let r := insertFoldsLoop ctx chunk street a s ctx.sortedSeats.length st (some es)
      let st'' := updStatus r.2.1 a
      (r.1 ++ [a], st'', get_next_seat ctx st'' s)

/-- The inner loop over a chunk's actions; `chunk` stays the whole chunk (the
code searches it from `chunk.index(action)`), `rest` is the remaining
suffix being iterated. -/
def processChunkActions (ctx : RingCtx) (street : String) (chunk : List Action) :
    List Action → (String → String) → Option Nat → List Action × (String → String)
  | [], st, _ => ([], st)
  | a :: rest, st, e =>
    let r1 := handleAction ctx street chunk st e a
    let r2 := processChunkActions ctx street chunk rest r1.2.1 r1.2.2
    (r1.1 ++ r2.1, r2.2)

/-- The first-actor computation per street (lines 651-677): preflop starts
after the big-blind poster when one is found and seated (string truthiness on
the name), else after dealer+2 in the ring; postflop starts after the dealer.
`dealer_idx_in_sorted` is never -1 after the fallback of lines 625-629, so
the guarded branches always run. -/
def initialExpected (ctx : RingCtx) (dealerIdx : Nat) (street : String)
    (chunk : List Action) (st : String → String) : Option Nat :=
  let len := ctx.sortedSeats.length
  if street = "preflop" then
    let bbPlayer := (chunk.find? (fun a => a.action = "posts_bb")).map (fun a => a.player)
    match bbPlayer with
    | some bbp =>
      if bbp ≠ "" then
        match ctx.nameToSeat bbp with
        | some bbSeat => get_next_seat ctx st bbSeat
        | none => get_next_seat ctx st (ctx.sortedSeats.getD ((dealerIdx + 2) % len) 0)
      else get_next_seat ctx st (ctx.sortedSeats.getD ((dealerIdx + 2) % len) 0)
    | none => get_next_seat ctx st (ctx.sortedSeats.getD ((dealerIdx + 2) % len) 0)
  else get_next_seat ctx st (ctx.sortedSeats.getD dealerIdx 0)

/-- The loop over street chunks (lines 651-757): the status dict persists
across chunks; the expected-seat cursor is recomputed per chunk. -/
def processChunks (ctx : RingCtx) (dealerIdx : Nat) :
    List (String × List Action) → (String → String) → List Action
  | [], _ => []
  | (street, chunk) :: rest, st =>
    let e0 := initialExpected ctx dealerIdx street chunk st
    let r := processChunkActions ctx street chunk chunk st e0
    r.1 ++ processChunks ctx dealerIdx rest r.2

/-- The dealer-seat fallback of infer_implicit_folds (lines 625-629): a
declared seat that is not an occupied seat (including an absent one) is
replaced by the lowest occupied seat, so `dealer_idx_in_sorted` is never -1
afterwards (making the -1 branches of lines 641-645 and 669/676 dead). -/
def resolveDealer (dealer_seat : Option Nat) (sortedSeats : List Nat) : Nat :=
  match dealer_seat with
  | some d => if d ∈ sortedSeats then d else sortedSeats.getD 0 0
  | none => sortedSeats.getD 0 0

/-- infer_implicit_folds (lines 561-763).  `sb_amount` and `bb_amount` are
parameters of the Python function that its body never reads. -/
def infer_implicit_folds (actions : List Action) (players : List Player)
    (dealer_seat : Option Nat) (sb_amount bb_amount : Option ℚ) : List Action :=
  if actions = [] ∨ players = [] then actions
  else
    let nameToSeat := pyDict (fun p => p.name) (fun p => p.seatIndex) players
    let seatToPlayer := pyDict (fun p => p.seatIndex) (fun p => p) players
    let sortedSeats := stableSortBy id (players.map (fun p => p.seatIndex))
    let ctx : RingCtx :=
      ⟨nameToSeat, fun s => seatToPlayer s, sortedSeats⟩
    let dealer2 := resolveDealer dealer_seat sortedSeats
    let dealerIdx := sortedSeats.indexOf dealer2
    processChunks ctx dealerIdx (groupStreets actions) initialStatus

/-! ## identify_folded_players (lines 401-422) -/

/-- Whether `s` contains `pat` as a substring (Python `pat in s`). -/
def containsStr (s pat : String) : Bool := decide (pat.toList <:+: s.toList)

/-- identify_folded_players (lines 401-422), as called by parse_for_replayer
(line 930), which always passes the showdown dict, so the inference branch
always runs: explicit folders plus money-committing players absent from
showdown.  The Python set is modelled as a list queried for membership. -/
def identify_folded_players (actions : List Action)
    (shown : List (String × List String)) : List String :=
  let folded := (actions.filter (fun a => a.action = "folds")).map (fun a => a.player)
  let withAction := (actions.filter (fun a =>
    a.action = "calls" ∨ a.action = "call" ∨ a.action = "bet" ∨ a.action = "bets" ∨
    a.action = "raise" ∨ a.action = "all-in")).map (fun a => a.player)
  folded ++ withAction.filter (fun p => ¬ (shown.any (fun kv => kv.1 = p)) ∧ p ∉ folded)

/-! ## parse_for_replayer, post-extraction pipeline (lines 766-973)

The regex extractors (lines 169-398) operate on raw text and are not part of
any claim settled here; the pipeline below takes their outputs as inputs:
`players0` from extract_players_with_stacks, `dealer0` from
extract_dealer_seat, `sb`/`bb` from extract_stakes, `heroName`/`heroCards`
from extract_hero_cards, `shown` from extract_shown_cards (a dict, modelled
as an association list with last-entry-wins lookup), `board` from
extract_board, `street` from detect_street_reached, `actions0` from
extract_actions and `potE` from extract_pot.  The empty-text short circuit
`if not raw_text: return {}` (line 772) is outside this model, which covers
every later line. -/

/-- Lookup in a Python dict represented as an entry list, last entry wins. -/
def lookupLast {β : Type} (l : List (String × β)) (k : String) : Option β :=
  (l.reverse.find? (fun kv => kv.1 = k)).map (fun kv => kv.2)

/-- The name-suffix role hints of parse_for_replayer (lines 821-834). -/
def roleHint (name : String) : Option String :=
  if containsStr name "_BTN" ∨ containsStr name "Button" then some "BTN"
  else if containsStr name "_CO" then some "CO"
  else if containsStr name "_HJ" ∨ containsStr name "_MP" then some "HJ"
  else if containsStr name "_UTG" then some "UTG"
  else if containsStr name "_SB" then some "SB"
  else if containsStr name "_BB" then some "BB"
  else none

/-- Python dict assignment on an entry list: overwrite in place when the key
exists, else append (preserves Python dict insertion order). -/
def dictSet (d : List (String × String)) (k v : String) : List (String × String) :=
  if d.any (fun kv => kv.1 = k) then
    d.map (fun kv => if kv.1 = k then (k, v) else kv)
  else d ++ [(k, v)]

/-- The `roles` dict of parse_for_replayer (lines 810-834): blind posts from
the action list first, then name hints for names without a role. -/
def computeRoles (names : List String) (actions : List Action) :
    List (String × String) :=
  let fromActions := actions.foldl
    (fun r a =>
      if a.action = "posts_big_blind" ∨ a.action = "posts_bb" then dictSet r a.player "BB"
      else if a.action = "posts_small_blind" ∨ a.action = "posts_sb" then
        dictSet r a.player "SB"
      else r)
    []
  names.foldl
    (fun r n =>
      if r.any (fun kv => kv.1 = n) then r
      else
        match roleHint n with
        | some h => dictSet r n h
        | none => r)
    fromActions

/-- `role_to_ideal_seat` (lines 839-848). -/
def role_to_ideal_seat (role : String) : Option Nat :=
  if role = "BTN" then some 0
  else if role = "SB" then some 1
  else if role = "BB" then some 2
  else if role = "UTG" then some 3
  else if role = "UTG+1" ∨ role = "UTG1" then some 4
  else if role = "UTG+2" ∨ role = "UTG2" then some 5
  else if role = "MP" then some 5
  else if role = "MP1" then some 6
  else if role = "LJ" then some 6
  else if role = "HJ" then some 7
  else if role = "CO" then some 8
  else none

/-- The collision loop `while s_idx in used_seats: s_idx += 1`
(lines 864-868), fuelled: at most `used.length` occupied values can be hit in
a row, so `used.length + 1` steps always reach a free value. -/
def findFreeFrom (used : List Nat) : Nat → Nat → Nat
  | _, 0 => 0
  | s, fuel + 1 => if s ∈ used then findFreeFrom used (s + 1) fuel else s

/-- `get_free_seat` (lines 874-882): first free value in 0..8, else the first
free value from 9 up. -/
def getFreeSeat (used : List Nat) : Nat :=
  match (List.range 9).find? (fun i => i ∉ used) with
  | some i => i
  | none => findFreeFrom used 9 (used.length + 1)

/-- The role-driven seat assignment (lines 850-871): roles sorted stably by
ideal seat (unknown roles keyed 100), each mapped to its ideal seat advanced
past collisions. -/
def assignRoleSeats (roles : List (String × String)) :
    List (String × Nat) × List Nat :=
  let sortedRoles := stableSortBy
    (fun kv => (role_to_ideal_seat kv.2).getD 100) roles
  sortedRoles.foldl
    (fun acc kv =>
      match role_to_ideal_seat kv.2 with
      | some ideal =>
        let s := findFreeFrom acc.2 ideal (acc.2.length + 1)
        (acc.1 ++ [(kv.1, s)], acc.2 ++ [s])
      | none => acc)
    ([], [])

/-- The hero-flag disjunction of the smart-seating loop (lines 900-905):
the "Dealt to" name (string truthiness), the flag carried by the extracted
player, or the hero-name conventions. -/
def heroFlagFor (players1 : List Player) (heroName : Option String)
    (n : String) : Bool :=
  (match heroName with
   | some h => decide (h ≠ "") && decide (n = h)
   | none => false) ||
  (match players1.find? (fun p => p.name = n) with
   | some e => e.isHero
   | none => false) ||
  decide (n = "Hero") || containsStr n "_Hero"

/-- Stack carried over by the smart-seating loop (line 907). -/
def stackFor (players1 : List Player) (n : String) : Option ℚ :=
  match players1.find? (fun p => p.name = n) with
  | some e => e.stack
  | none => none

/-- Cards carried over by the smart-seating loop (line 908). -/
def cardsFor (players1 : List Player) (n : String) : Option (List String) :=
  match players1.find? (fun p => p.name = n) with
  | some e => e.cards
  | none => none

/-- Position carried over by the smart-seating loop (line 910). -/
def positionFor (players1 : List Player) (n : String) : String :=
  match players1.find? (fun p => p.name = n) with
  | some e => e.position
  | none => "UNKNOWN"

/-- The final smart-seating loop (lines 884-922): walks the name list,
assigning each name its role seat or the next free seat, and rebuilding the
player record (only `seatIndex` is newly computed; `isActive` is reset to
`True` as in line 917). -/
def seatLoop (players1 : List Player) (heroName : Option String) :
    List String → List (String × Nat) → List Nat → List Player
  | [], _, _ => []
  | n :: rest, assigned, used =>
    let r :=
      match lookupLast assigned n with
      | some s => (s, assigned, used)
      | none =>
        let s := getFreeSeat used
        (s, assigned ++ [(n, s)], used ++ [s])
    ⟨n, r.1, heroFlagFor players1 heroName n, cardsFor players1 n, true,
      stackFor players1 n, positionFor players1 n⟩ ::
      seatLoop players1 heroName rest r.2.1 r.2.2

/-- Seat Reassignment / "Smart Seating" (parse_for_replayer lines 801-922),
given the players carrying their computed positions, the (fold-completed)
action list and the extracted hero name. -/
def smart_seating (players1 : List Player) (actions : List Action)
    (heroName : Option String) : List Player :=
  let names := pyDedup (players1.map (fun p => p.name) ++ actions.map (fun a => a.player))
  let roles := computeRoles names actions
  let r := assignRoleSeats roles
  seatLoop players1 heroName names r.1 r.2

/-- The card/activity pass of parse_for_replayer (lines 932-945): hero cards,
then showdown cards; folded players marked inactive, then card-less non-hero
players marked inactive. -/
def cardsActivePass (heroCards : Option (List String))
    (shown : List (String × List String)) (folded : List String)
    (p : Player) : Player :=
  let cards :=
    if p.isHero && (match heroCards with | some cs => decide (cs ≠ []) | none => false)
    then heroCards
    else match lookupLast shown p.name with
      | some cs => some cs
      | none => p.cards
  let isActive :=
    if p.name ∈ folded then false
    else if cards = none ∧ ¬ p.isHero then false
    else p.isActive
  { p with cards := cards, isActive := isActive }

/-- Minimum seat index with Python's `min(..., default=0)`. -/
def minSeatOf (players : List Player) : Nat :=
  match players.map (fun p => p.seatIndex) with
  | [] => 0
  | s :: rest => rest.foldl Nat.min s

/-- The fold-completed action list of parse_for_replayer (lines 790-793):
implicit folds are inferred only when both lists are nonempty. -/
def actionsAfterFolds (players0 : List Player) (actions0 : List Action)
    (dealer0 : Option Nat) (sb bb : Option ℚ) : List Action :=
  if actions0 ≠ [] ∧ players0 ≠ [] then
    infer_implicit_folds actions0 players0 dealer0 sb bb
  else actions0

/-- Python truthiness of `if bb and bb > 0:` (line 957): a present, nonzero,
positive big blind. -/
def bbNormActive (bb : Option ℚ) : Bool :=
  match bb with
  | some b => decide (b ≠ 0) && decide (0 < b)
  | none => false

/-- The tail of parse_for_replayer (lines 801-973) after the positions are
attached to `players1`: smart seating, dealer-seat forcing, cards and
activity flags, seat-index zero-basing, blind-relative normalization, and the
final record (`pot or 0`). -/
def pipelineRest (players1 : List Player) (actions : List Action)
    (sb bb : Option ℚ) (heroName : Option String)
    (heroCards : Option (List String)) (shown : List (String × List String))
    (board : List String) (street : String) (potE : Option ℚ) : HandState :=
  -- lines 801-922: smart seating
  let players2 := smart_seating players1 actions heroName
  -- lines 924-926: dealer seat forced to 0 when some role is BTN
  let names := pyDedup
    (players1.map (fun p => p.name) ++ actions.map (fun a => a.player))
  let roles := computeRoles names actions
  let dealer1 : Option Int := if roles.any (fun kv => kv.2 = "BTN") then some 0 else none
  -- lines 929-945: pot, folded players, cards and activity flags
  let potV := potE
  let folded := identify_folded_players actions shown
  let players3 := players2.map (cardsActivePass heroCards shown folded)
  -- lines 947-954: zero-base the seat indices
  let minSeat := minSeatOf players3
  let players4 :=
    if 0 < minSeat then
      players3.map (fun p => { p with seatIndex := p.seatIndex - minSeat })
    else players3
  let dealer2 := if 0 < minSeat then dealer1.map (fun d => d - (minSeat : Int)) else dealer1
  -- lines 956-962: blind-relative normalization (Python truthiness on bb, pot)
  let doNorm : Bool := bbNormActive bb
  let players5 :=
    if doNorm then
      players4.map (fun p =>
        { p with stack := p.stack.map (fun s => pyRound1 (s / bb.getD 1)) })
    else players4
  let potN :=
    if doNorm then
      match potV with
      | some pp => if pp ≠ 0 then some (pyRound1 (pp / bb.getD 1)) else some pp
      | none => none
    else potV
  -- lines 964-973: the returned dict; `pot or 0`
  { players := players5
    board := board
    pot := potN.getD 0
    street := street
    sb := sb
    bb := bb
    dealerSeat := dealer2
    actions := actions }

/-- The post-positions pipeline of parse_for_replayer (lines 795-973), from
the extractor outputs to the returned HandState, parameterized by the
positions dict computed by calculate_poker_positions (see
parse_for_replayer_core for the composition). -/
def parse_core_with (posMap : String → Option String) (players0 : List Player)
    (actions0 : List Action) (dealer0 : Option Nat) (sb bb : Option ℚ)
    (heroName : Option String) (heroCards : Option (List String))
    (shown : List (String × List String)) (board : List String) (street : String)
    (potE : Option ℚ) : HandState :=
  let actions := actionsAfterFolds players0 actions0 dealer0 sb bb
  -- lines 798-799: attach positions
  let players1 := players0.map
    (fun p => { p with position := (posMap p.name).getD "UNKNOWN" })
  pipelineRest players1 actions sb bb heroName heroCards shown board street potE

/-- parse_for_replayer's post-extraction pipeline (lines 766-973); `none`
models the uncaught KeyError that calculate_poker_positions can raise (caught
only at the per-hand boundary in process_hands). -/
def parse_for_replayer_core (players0 : List Player) (actions0 : List Action)
    (dealer0 : Option Nat) (sb bb : Option ℚ) (heroName : Option String)
    (heroCards : Option (List String)) (shown : List (String × List String))
    (board : List String) (street : String) (potE : Option ℚ) :
    Option HandState :=
  let actions := actionsAfterFolds players0 actions0 dealer0 sb bb
  match calculate_poker_positions players0 dealer0 actions with
  | none => none
  | some posMap =>
    some (parse_core_with posMap players0 actions0 dealer0 sb bb heroName heroCards
      shown board street potE)

/-! ## Library lemmas about the embedding's dict, sort and ring helpers -/

lemma pyDict_foldl_eq {α κ β : Type} [DecidableEq κ] (keyf : α → κ) (valf : α → β)
    (l : List α) (m0 : κ → Option β) (k : κ) :
    (l.foldl (fun m p => fun x => if x = keyf p then some (valf p) else m x) m0) k
      = match l.reverse.find? (fun p => keyf p = k) with
        | some p => some (valf p)
        | none => m0 k := by
  induction l generalizing m0 with
  | nil => simp
  | cons a t ih =>
    rw [List.foldl_cons, ih, List.reverse_cons, List.find?_append]
    cases h : t.reverse.find? (fun p => decide (keyf p = k)) with
    | some p => simp [Option.or]
    | none =>
      simp only [Option.or, List.find?]
      by_cases hk : keyf a = k
      · simp [hk]
      · simp [hk, Ne.symm hk]

lemma pyDict_apply {α κ β : Type} [DecidableEq κ] (keyf : α → κ) (valf : α → β)
    (l : List α) (k : κ) :
    pyDict keyf valf l k
      = match l.reverse.find? (fun p => keyf p = k) with
        | some p => some (valf p)
        | none => none := by
  rw [pyDict, pyDict_foldl_eq]

lemma pyDict_eq_none_iff {α κ β : Type} [DecidableEq κ] (keyf : α → κ) (valf : α → β)
    (l : List α) (k : κ) :
    pyDict keyf valf l k = none ↔ ∀ p ∈ l, keyf p ≠ k := by
  rw [pyDict_apply]
  cases h : l.reverse.find? (fun p => decide (keyf p = k)) with
  | some p =>
    have hp := List.find?_some h
    have hmem := List.mem_reverse.mp (List.mem_of_find?_eq_some h)
    simp only [decide_eq_true_eq] at hp
    simp only [reduceCtorEq, false_iff, not_forall]
    exact ⟨p, hmem, by simp [hp]⟩
  | none =>
    have := List.find?_eq_none.mp h
    simp only [true_iff]
    intro p hp
    exact fun hk => by simpa [hk] using this p (List.mem_reverse.mpr hp)

lemma find?_key_eq_some_of_nodup {α κ : Type} [DecidableEq κ] {keyf : α → κ}
    {l : List α} {p : α} (hnd : (l.map keyf).Nodup) (hp : p ∈ l) :
    l.find? (fun q => keyf q = keyf p) = some p := by
  induction l with
  | nil => simp at hp
  | cons a t ih =>
    rw [List.map_cons, List.nodup_cons] at hnd
    by_cases hk : keyf a = keyf p
    · have hap : a = p := by
        rcases List.mem_cons.mp hp with h | h
        · exact h.symm
        · exact absurd (hk ▸ List.mem_map_of_mem keyf h) hnd.1
      simp [List.find?, hk, hap]
    · have hpt : p ∈ t := by
        rcases List.mem_cons.mp hp with h | h
        · exact absurd (h ▸ rfl) hk
        · exact h
      simp [List.find?, hk, ih hnd.2 hpt]

lemma pyDict_of_mem_nodup {α κ β : Type} [DecidableEq κ] {keyf : α → κ} (valf : α → β)
    {l : List α} {p : α} (hnd : (l.map keyf).Nodup) (hp : p ∈ l) :
    pyDict keyf valf l (keyf p) = some (valf p) := by
  rw [pyDict_apply]
  have hndr : (l.reverse.map keyf).Nodup := by
    simpa [List.map_reverse] using List.nodup_reverse.mpr hnd
  rw [find?_key_eq_some_of_nodup hndr (List.mem_reverse.mpr hp)]

lemma insertByKey_perm {α : Type} (key : α → Nat) (a : α) (l : List α) :
    (insertByKey key a l).Perm (a :: l) := by
  induction l with
  | nil => simp [insertByKey]
  | cons b t ih =>
    rw [insertByKey]
    by_cases h : key a ≤ key b
    · simp [h]
    · simp only [h, if_false]
      exact (ih.cons b).trans (List.Perm.swap a b t)

lemma stableSortBy_perm {α : Type} (key : α → Nat) (l : List α) :
    (stableSortBy key l).Perm l := by
  induction l with
  | nil => simp [stableSortBy]
  | cons a t ih =>
    rw [stableSortBy, List.foldr_cons]
    exact (insertByKey_perm key a _).trans (ih.cons a)

lemma stableSortBy_length {α : Type} (key : α → Nat) (l : List α) :
    (stableSortBy key l).length = l.length :=
  (stableSortBy_perm key l).length_eq

lemma findIdx_eq_of_getD {α : Type} (l : List α) (p : α → Bool) (d : α) (j : Nat)
    (hj : j < l.length) (hpj : p (l.getD j d) = true)
    (hlt : ∀ i, i < j → p (l.getD i d) = false) :
    l.findIdx p = j := by
  induction l generalizing j with
  | nil => simp at hj
  | cons a t ih =>
    cases j with
    | zero =>
      simp only [List.getD_cons_zero] at hpj
      simp [List.findIdx_cons, hpj]
    | succ j' =>
      have h0 : p a = false := by simpa using hlt 0 (Nat.succ_pos j')
      simp only [List.getD_cons_succ] at hpj
      rw [List.findIdx_cons, h0, cond_false]
      have := ih j' (by simpa using hj) hpj
        (fun i hi => by simpa using hlt (i + 1) (Nat.succ_lt_succ hi))
      omega

lemma posUpd_same (m : String → Option String) (k v : String) :
    posUpd m k v k = some v := by simp [posUpd]

lemma posUpd_diff (m : String → Option String) (k v x : String) (h : x ≠ k) :
    posUpd m k v x = m x := by simp [posUpd, h]

/-- Head-of-ring label: the button-side player takes the first label of the
table-size branch of assignPositions (sizes 2 to 9) provided the other ring
entries carry different names. -/
lemma assignPositions_ring_zero (ring : List String) (n : Nat) (h2 : 2 ≤ n)
    (h9 : n ≤ 9)
    (hne : ∀ i, i < n → 0 < i → ring.getD i "" ≠ ring.getD 0 "") :
    assignPositions ring n (ring.getD 0 "")
      = some (if n = 2 then "BTN/SB" else "BTN") := by
  simp only [List.getD_eq_getElem?_getD] at hne ⊢
  interval_cases n
  · rw [assignPositions]
    norm_num
    rw [posUpd_diff _ _ _ _ (Ne.symm (hne 1 (by norm_num) (by norm_num))), posUpd_same]
  · rw [assignPositions]
    norm_num
    rw [posUpd_diff _ _ _ _ (Ne.symm (hne 2 (by norm_num) (by norm_num))),
      posUpd_diff _ _ _ _ (Ne.symm (hne 1 (by norm_num) (by norm_num))), posUpd_same]
  · rw [assignPositions]
    norm_num
    rw [posUpd_diff _ _ _ _ (Ne.symm (hne 3 (by norm_num) (by norm_num))),
      posUpd_diff _ _ _ _ (Ne.symm (hne 2 (by norm_num) (by norm_num))),
      posUpd_diff _ _ _ _ (Ne.symm (hne 1 (by norm_num) (by norm_num))), posUpd_same]
  · rw [assignPositions]
    norm_num
    rw [posUpd_diff _ _ _ _ (Ne.symm (hne 4 (by norm_num) (by norm_num))),
      posUpd_diff _ _ _ _ (Ne.symm (hne 3 (by norm_num) (by norm_num))),
      posUpd_diff _ _ _ _ (Ne.symm (hne 2 (by norm_num) (by norm_num))),
      posUpd_diff _ _ _ _ (Ne.symm (hne 1 (by norm_num) (by norm_num))), posUpd_same]
  · rw [assignPositions]
    norm_num
    rw [posUpd_diff _ _ _ _ (Ne.symm (hne 5 (by norm_num) (by norm_num))),
      posUpd_diff _ _ _ _ (Ne.symm (hne 4 (by norm_num) (by norm_num))),
      posUpd_diff _ _ _ _ (Ne.symm (hne 3 (by norm_num) (by norm_num))),
      posUpd_diff _ _ _ _ (Ne.symm (hne 2 (by norm_num) (by norm_num))),
      posUpd_diff _ _ _ _ (Ne.symm (hne 1 (by norm_num) (by norm_num))), posUpd_same]
  · rw [assignPositions]
    norm_num
    rw [posUpd_diff _ _ _ _ (Ne.symm (hne 6 (by norm_num) (by norm_num))),
      posUpd_diff _ _ _ _ (Ne.symm (hne 5 (by norm_num) (by norm_num))),
      posUpd_diff _ _ _ _ (Ne.symm (hne 4 (by norm_num) (by norm_num))),
      posUpd_diff _ _ _ _ (Ne.symm (hne 3 (by norm_num) (by norm_num))),
      posUpd_diff _ _ _ _ (Ne.symm (hne 2 (by norm_num) (by norm_num))),
      posUpd_diff _ _ _ _ (Ne.symm (hne 1 (by norm_num) (by norm_num))), posUpd_same]
  · rw [assignPositions]
    norm_num
    rw [posUpd_diff _ _ _ _ (Ne.symm (hne 7 (by norm_num) (by norm_num))),
      posUpd_diff _ _ _ _ (Ne.symm (hne 6 (by norm_num) (by norm_num))),
      posUpd_diff _ _ _ _ (Ne.symm (hne 5 (by norm_num) (by norm_num))),
      posUpd_diff _ _ _ _ (Ne.symm (hne 4 (by norm_num) (by norm_num))),
      posUpd_diff _ _ _ _ (Ne.symm (hne 3 (by norm_num) (by norm_num))),
      posUpd_diff _ _ _ _ (Ne.symm (hne 2 (by norm_num) (by norm_num))),
      posUpd_diff _ _ _ _ (Ne.symm (hne 1 (by norm_num) (by norm_num))), posUpd_same]
  · rw [assignPositions]
    norm_num
    rw [posUpd_diff _ _ _ _ (Ne.symm (hne 8 (by norm_num) (by norm_num))),
      posUpd_diff _ _ _ _ (Ne.symm (hne 7 (by norm_num) (by norm_num))),
      posUpd_diff _ _ _ _ (Ne.symm (hne 6 (by norm_num) (by norm_num))),
      posUpd_diff _ _ _ _ (Ne.symm (hne 5 (by norm_num) (by norm_num))),
      posUpd_diff _ _ _ _ (Ne.symm (hne 4 (by norm_num) (by norm_num))),
      posUpd_diff _ _ _ _ (Ne.symm (hne 3 (by norm_num) (by norm_num))),
      posUpd_diff _ _ _ _ (Ne.symm (hne 2 (by norm_num) (by norm_num))),
      posUpd_diff _ _ _ _ (Ne.symm (hne 1 (by norm_num) (by norm_num))), posUpd_same]

lemma range_map_getD {β : Type} (n i : Nat) (f : Nat → β) (d : β) (hi : i < n) :
    ((List.range n).map f).getD i d = f i := by
  rw [List.getD_eq_getElem?_getD, List.getElem?_map, List.getElem?_range hi]
  rfl

lemma getD_inj_of_map_nodup {β : Type} [DecidableEq β] {f : Player → β}
    {sp : List Player} (hnd : (sp.map f).Nodup) {i j : Nat}
    (hi : i < sp.length) (hj : j < sp.length)
    (hf : f (sp.getD i dummyPlayer) = f (sp.getD j dummyPlayer)) : i = j := by
  rw [List.getD_eq_getElem _ _ hi, List.getD_eq_getElem _ _ hj] at hf
  have hmi : i < (sp.map f).length := by simpa using hi
  have hmj : j < (sp.map f).length := by simpa using hj
  have : (sp.map f).get ⟨i, hmi⟩ = (sp.map f).get ⟨j, hmj⟩ := by
    simpa using hf
  have := List.Nodup.get_inj_iff hnd |>.mp this
  simpa using this

lemma add_mod_ne {n b i : Nat} (hb : b < n) (hi : i < n) (h0 : 0 < i) :
    (b + i) % n ≠ b := by
  rcases Nat.lt_or_ge (b + i) n with h' | h'
  · rw [Nat.mod_eq_of_lt h']
    omega
  · rw [Nat.mod_eq_sub_mod h', Nat.mod_eq_of_lt (by omega)]
    omega

lemma emodIdx_lt {n : Nat} (hn : 0 < n) (j : Nat) :
    (((j : Int) - 1).emod (n : Int)).toNat < n := by
  have hpos : (0 : Int) < n := by exact_mod_cast hn
  have h1 : ((j : Int) - 1).emod n < n := Int.emod_lt_of_pos _ hpos
  have h2 : 0 ≤ ((j : Int) - 1).emod n := Int.emod_nonneg _ (by omega)
  omega

lemma getD_mem_of_lt {α : Type} (l : List α) (i : Nat) (d : α) (hi : i < l.length) :
    l.getD i d ∈ l := by
  rw [List.getD_eq_getElem _ _ hi]
  exact List.getElem_mem hi

/-- Two members of a list with no duplicate keys that agree on the key are
equal. -/
lemma mem_key_unique {α β : Type} {f : α → β} {l : List α} (hnd : (l.map f).Nodup)
    {x y : α} (hx : x ∈ l) (hy : y ∈ l) (hf : f x = f y) : x = y :=
  List.inj_on_of_nodup_map hnd hx hy hf

/-- The seat-based findIdx of calculate_poker_positions retrieves the same
index as the name-based one when both names and seats are duplicate free. -/
lemma findIdx_seat_eq_findIdx_name {sp : List Player}
    (hndn : (sp.map Player.name).Nodup) (hnds : (sp.map Player.seatIndex).Nodup)
    {q : Player} (hq : q ∈ sp) :
    sp.findIdx (fun p => p.seatIndex = q.seatIndex)
      = sp.findIdx (fun p => p.name = q.name) := by
  have hex : ∃ x ∈ sp, (fun p => decide (p.name = q.name)) x = true :=
    ⟨q, hq, by simp⟩
  have hj : sp.findIdx (fun p => p.name = q.name) < sp.length :=
    List.findIdx_lt_length.mpr hex
  set j := sp.findIdx (fun p => p.name = q.name) with hjdef
  have hpj : (sp.getD j dummyPlayer).name = q.name := by
    have := @List.findIdx_getElem _ (fun p => decide (p.name = q.name)) sp hj
    rw [List.getD_eq_getElem _ _ hj]
    simpa using this
  have hqj : sp.getD j dummyPlayer = q :=
    mem_key_unique hndn (getD_mem_of_lt sp j dummyPlayer hj) hq hpj
  apply findIdx_eq_of_getD sp _ dummyPlayer j hj
  · simp only [hqj, decide_eq_true_eq]
  · intro i hij
    have hi : i < sp.length := Nat.lt_trans hij hj
    by_contra hcon
    have hseat : (sp.getD i dummyPlayer).seatIndex = q.seatIndex := by
      simpa using hcon
    have hiq : sp.getD i dummyPlayer = q :=
      mem_key_unique hnds (getD_mem_of_lt sp i dummyPlayer hi) hq hseat
    have hname : (fun p => decide (p.name = q.name)) (sp.getD i dummyPlayer) = false := by
      rw [List.getD_eq_getElem sp dummyPlayer hi]
      exact @List.not_of_lt_findIdx _ (fun p => decide (p.name = q.name)) sp i hij
    rw [hiq] at hname
    simp at hname

/-- The ring entries of ringFrom, in terms of the seat-sorted players. -/
lemma ringFrom_getD {sp : List Player} (hndn : (sp.map Player.name).Nodup)
    (hnds : (sp.map Player.seatIndex).Nodup) {n : Nat} (hn : n = sp.length)
    {b : Nat} (hb : b < n) (i : Nat) (hi : i < n) :
    (ringFrom sp (pyDict (fun p => p.name) (fun p => p.seatIndex) sp) n
        ((sp.getD b dummyPlayer).name)).getD i ""
      = (sp.getD ((b + i) % n) dummyPlayer).name := by
  have hpbmem : sp.getD b dummyPlayer ∈ sp := getD_mem_of_lt sp b dummyPlayer (hn ▸ hb)
  have hlook : pyDict (fun p => p.name) (fun p => p.seatIndex) sp
      ((sp.getD b dummyPlayer).name) = some ((sp.getD b dummyPlayer).seatIndex) :=
    pyDict_of_mem_nodup (fun p => p.seatIndex) hndn hpbmem
  have hidx : sp.findIdx (fun p => p.seatIndex = (sp.getD b dummyPlayer).seatIndex) = b := by
    apply findIdx_eq_of_getD sp _ dummyPlayer b (hn ▸ hb)
    · simp
    · intro i' hib
      by_contra hcon
      have hseat : (sp.getD i' dummyPlayer).seatIndex = (sp.getD b dummyPlayer).seatIndex := by
        simpa using hcon
      exact absurd
        (getD_inj_of_map_nodup hnds (Nat.lt_trans hib (hn ▸ hb)) (hn ▸ hb) hseat)
        (Nat.ne_of_lt hib)
  rw [ringFrom, hlook]
  simp only [Option.getD_some, hidx]
  exact range_map_getD n i _ "" hi

/-- The refinement target of the dead-button claim, stated from the
specification's words: sort the active players by ascending seat number; the
button is the player immediately preceding the small-blind poster in that
order, with wraparound. -/
def spec_button_dead (players : List Player) (sbName : String) : String :=
  let sp := stableSortBy (fun p => p.seatIndex) players
  let j := sp.findIdx (fun p => p.name = sbName)
  (sp.getD (((j : Int) - 1).emod (sp.length : Int)).toNat dummyPlayer).name

/-- The button-side player of the ring receives the head label of the
table-size branch. -/
lemma ring_assign_btn {sp : List Player} (hndn : (sp.map Player.name).Nodup)
    (hnds : (sp.map Player.seatIndex).Nodup) {n : Nat} (hn : n = sp.length)
    (h2 : 2 ≤ n) (h9 : n ≤ 9) {b : Nat} (hb : b < n) :
    assignPositions
        (ringFrom sp (pyDict (fun p => p.name) (fun p => p.seatIndex) sp) n
          ((sp.getD b dummyPlayer).name)) n
        ((sp.getD b dummyPlayer).name)
      = some (if n = 2 then "BTN/SB" else "BTN") := by
  have hr0 : (ringFrom sp (pyDict (fun p => p.name) (fun p => p.seatIndex) sp) n
      ((sp.getD b dummyPlayer).name)).getD 0 "" = (sp.getD b dummyPlayer).name := by
    rw [ringFrom_getD hndn hnds hn hb 0 (by omega)]
    rw [Nat.add_zero, Nat.mod_eq_of_lt hb]
  nth_rewrite 2 [← hr0]
  apply assignPositions_ring_zero _ n h2 h9
  intro i hi h0
  rw [ringFrom_getD hndn hnds hn hb i hi, hr0]
  intro hcon
  have hmodlt : (b + i) % n < n := Nat.mod_lt _ (by omega)
  have := getD_inj_of_map_nodup hndn (hn ▸ hmodlt) (hn ▸ hb) hcon
  exact add_mod_ne hb hi h0 this

/-- The unfolding of calculate_poker_positions on a nonempty player list. -/
lemma calculate_eq_of_ne_nil (players : List Player) (dealer_seat : Option Nat)
    (actions : List Action) (h : players ≠ []) :
    calculate_poker_positions players dealer_seat actions
      = (deadButtonFallback (stableSortBy (fun p => p.seatIndex) players)
            (pyDict (fun p => p.name) (fun p => p.seatIndex)
              (stableSortBy (fun p => p.seatIndex) players))
            players.length (sbPlayerOf actions)
            (declaredButton
              (pyDict (fun p => p.seatIndex) (fun p => p.name)
                (stableSortBy (fun p => p.seatIndex) players))
              dealer_seat)).map
          (calcWithButton (stableSortBy (fun p => p.seatIndex) players)
            (pyDict (fun p => p.name) (fun p => p.seatIndex)
              (stableSortBy (fun p => p.seatIndex) players))
            players.length) := by
  simp only [calculate_poker_positions, if_neg h]

/-- The dead-button branch of calculate_poker_positions, when the declared
button produced nothing and a seated small-blind poster exists. -/
lemma deadButtonFallback_of_sb {sp : List Player}
    (hndn : (sp.map Player.name).Nodup) {q : Player} (hq : q ∈ sp)
    (hqe : q.name ≠ "") (n : Nat) :
    deadButtonFallback sp (pyDict (fun p => p.name) (fun p => p.seatIndex) sp) n
        (some q.name) none
      = some (some ((sp.getD
          ((((sp.findIdx (fun p => p.seatIndex = q.seatIndex)) : Int) - 1).emod
            (n : Int)).toNat dummyPlayer).name)) := by
  have hlook : pyDict (fun p => p.name) (fun p => p.seatIndex) sp q.name
      = some q.seatIndex := pyDict_of_mem_nodup (fun p => p.seatIndex) hndn hq
  rw [deadButtonFallback]
  simp only [optStrTruthy, Bool.false_eq_true, if_false, hqe, ite_true, hlook,
    if_true, ne_eq, not_false_eq_true]

/-! ## C1 -/

/-- C1: for every hand whose declared button seat is absent or does not match
any active player's seat, but whose action list identifies a small-blind
poster among the seated active players, calculate_poker_positions resolves
the button to the active player immediately preceding the small-blind poster
in ascending seat order with wraparound (spec_button_dead) and assigns that
player the BTN label, for table sizes 3 through 9. -/
theorem c1_dead_button_resolves_to_sb_predecessor
    (players : List Player) (dealer_seat : Option Nat) (actions : List Action)
    (sbName : String)
    (h3 : 3 ≤ players.length) (h9 : players.length ≤ 9)
    (hndn : (players.map Player.name).Nodup)
    (hnds : (players.map Player.seatIndex).Nodup)
    (hnn : ∀ p ∈ players, p.name ≠ "")
    (hdead : ∀ d, dealer_seat = some d → ∀ p ∈ players, p.seatIndex ≠ d)
    (hsb : sbPlayerOf actions = some sbName)
    (hmem : ∃ q ∈ players, q.name = sbName) :
    posOf (calculate_poker_positions players dealer_seat actions)
        (spec_button_dead players sbName) = some "BTN" := by
  obtain ⟨q, hqmem, hqname⟩ := hmem
  subst hqname
  have hplne : players ≠ [] := by
    intro h
    rw [h] at h3
    simp at h3
  have hperm := stableSortBy_perm (fun p => p.seatIndex) players
  have hspq : q ∈ stableSortBy (fun p => p.seatIndex) players := hperm.mem_iff.mpr hqmem
  have hndn2 : ((stableSortBy (fun p => p.seatIndex) players).map Player.name).Nodup :=
    (hperm.map Player.name).nodup_iff.mpr hndn
  have hnds2 : ((stableSortBy (fun p => p.seatIndex) players).map Player.seatIndex).Nodup :=
    (hperm.map Player.seatIndex).nodup_iff.mpr hnds
  have hnn2 : ∀ p ∈ stableSortBy (fun p => p.seatIndex) players, p.name ≠ "" :=
    fun p hp => hnn p (hperm.subset hp)
  have hlen : (stableSortBy (fun p => p.seatIndex) players).length = players.length :=
    hperm.length_eq
  have hnpos : 0 < players.length := by omega
  have hbtn0 : declaredButton
      (pyDict (fun p => p.seatIndex) (fun p => p.name)
        (stableSortBy (fun p => p.seatIndex) players)) dealer_seat
      = (none : Option String) := by
    cases dealer_seat with
    | none => rfl
    | some d =>
      exact (pyDict_eq_none_iff _ _ _ _).mpr
        (fun p hp => hdead d rfl p (hperm.subset hp))
  rw [calculate_eq_of_ne_nil players dealer_seat actions hplne, hbtn0, hsb,
    deadButtonFallback_of_sb hndn2 hspq (hnn q hqmem) players.length,
    Option.map_some']
  have hblt : ((((stableSortBy (fun p => p.seatIndex) players).findIdx
      (fun p => p.seatIndex = q.seatIndex) : Int) - 1).emod
        (players.length : Int)).toNat < players.length := emodIdx_lt hnpos _
  have hbne : ((stableSortBy (fun p => p.seatIndex) players).getD
      ((((stableSortBy (fun p => p.seatIndex) players).findIdx
        (fun p => p.seatIndex = q.seatIndex) : Int) - 1).emod
          (players.length : Int)).toNat dummyPlayer).name ≠ "" :=
    hnn2 _ (getD_mem_of_lt _ _ _ (hlen.symm ▸ hblt))
  simp only [posOf, calcWithButton, optStrTruthy, ne_eq, hbne, not_false_eq_true,
    decide_True, if_true, Option.getD_some]
  have hspec : spec_button_dead players q.name
      = ((stableSortBy (fun p => p.seatIndex) players).getD
          ((((stableSortBy (fun p => p.seatIndex) players).findIdx
            (fun p => p.seatIndex = q.seatIndex) : Int) - 1).emod
              (players.length : Int)).toNat dummyPlayer).name := by
    simp only [spec_button_dead]
    rw [findIdx_seat_eq_findIdx_name hndn2 hnds2 hspq, hlen]
  rw [hspec, ring_assign_btn hndn2 hnds2 hlen.symm (by omega) h9 hblt,
    if_neg (by omega)]

/-- Concrete 3-handed fixture for the dead-button scenario of section 8 of
the specification: occupied seats 2, 4, 5; declared button seat 9 matches no
occupied seat; the small blind was posted from seat 5. -/
def c1Players : List Player :=
  [⟨"A", 2, false, none, true, none, "UNKNOWN"⟩,
   ⟨"B", 4, false, none, true, none, "UNKNOWN"⟩,
   ⟨"C", 5, false, none, true, none, "UNKNOWN"⟩]

/-- The single small-blind post of the dead-button fixture. -/
def c1Actions : List Action := [⟨"C", "posts_sb", none, "preflop"⟩]

/-- C1 witness: on the concrete dead-button fixture the resolved button is
the active seat immediately preceding the SB poster (seat 4) and it is
labeled BTN. -/
theorem c1_dead_button_witness :
    posOf (calculate_poker_positions c1Players (some 9) c1Actions)
        (spec_button_dead c1Players "C") = some "BTN"
      ∧ spec_button_dead c1Players "C" = "B" := by
  constructor
  · exact c1_dead_button_resolves_to_sb_predecessor c1Players (some 9) c1Actions "C"
      (by decide) (by decide) (by decide) (by decide) (by decide)
      (by
        intro d hd p hp
        cases hd
        revert p hp
        decide)
      (by decide)
      ⟨⟨"C", 5, false, none, true, none, "UNKNOWN"⟩, by decide, rfl⟩
  · decide

/-! ## C3 -/

/-- C3 counterexample: with the declared button seat absent and no
small-blind poster identifiable, calculate_poker_positions does not return an
empty mapping: on the concrete fixture the lowest-seated player "A" receives
the "BTN" label. -/
theorem c3_counterexample_not_empty_mapping :
    posOf (calculate_poker_positions c1Players none []) "A" = some "BTN" := by
  decide

/-- C3 amended: when the declared button seat is absent or unoccupied and no
small-blind poster can be identified, calculate_poker_positions does not fail
to an empty mapping; it falls back to treating the first player in ascending
seat order as the button, assigning it the head label of the table-size
branch (BTN, or the combined BTN/SB label for two players). -/
theorem c3_dead_button_no_sb_lowest_seat_is_button
    (players : List Player) (dealer_seat : Option Nat) (actions : List Action)
    (h2 : 2 ≤ players.length) (h9 : players.length ≤ 9)
    (hndn : (players.map Player.name).Nodup)
    (hnds : (players.map Player.seatIndex).Nodup)
    (hnn : ∀ p ∈ players, p.name ≠ "")
    (hdead : ∀ d, dealer_seat = some d → ∀ p ∈ players, p.seatIndex ≠ d)
    (hsb : sbPlayerOf actions = none) :
    posOf (calculate_poker_positions players dealer_seat actions)
        ((stableSortBy (fun p => p.seatIndex) players).getD 0 dummyPlayer).name
      = some (if players.length = 2 then "BTN/SB" else "BTN") := by
  have hplne : players ≠ [] := by
    intro h
    rw [h] at h2
    simp at h2
  have hperm := stableSortBy_perm (fun p => p.seatIndex) players
  have hndn2 : ((stableSortBy (fun p => p.seatIndex) players).map Player.name).Nodup :=
    (hperm.map Player.name).nodup_iff.mpr hndn
  have hnds2 : ((stableSortBy (fun p => p.seatIndex) players).map Player.seatIndex).Nodup :=
    (hperm.map Player.seatIndex).nodup_iff.mpr hnds
  have hlen : (stableSortBy (fun p => p.seatIndex) players).length = players.length :=
    hperm.length_eq
  have hbtn0 : declaredButton
      (pyDict (fun p => p.seatIndex) (fun p => p.name)
        (stableSortBy (fun p => p.seatIndex) players)) dealer_seat
      = (none : Option String) := by
    cases dealer_seat with
    | none => rfl
    | some d =>
      exact (pyDict_eq_none_iff _ _ _ _).mpr
        (fun p hp => hdead d rfl p (hperm.subset hp))
  have hdbf : deadButtonFallback (stableSortBy (fun p => p.seatIndex) players)
      (pyDict (fun p => p.name) (fun p => p.seatIndex)
        (stableSortBy (fun p => p.seatIndex) players))
      players.length none none = some none := by
    rw [deadButtonFallback]
    simp [optStrTruthy]
  rw [calculate_eq_of_ne_nil players dealer_seat actions hplne, hbtn0, hsb, hdbf,
    Option.map_some']
  simp only [posOf, calcWithButton, optStrTruthy, Bool.false_eq_true, if_false]
  exact (ring_assign_btn hndn2 hnds2 hlen.symm h2 h9 (by omega)).trans rfl

/-- C3 amended witness: on the concrete 3-seat dead-button fixture with no
blind posts, the lowest-seated player "A" is resolved as the button. -/
theorem c3_amended_witness :
    posOf (calculate_poker_positions c1Players none [])
        ((stableSortBy (fun p => p.seatIndex) c1Players).getD 0 dummyPlayer).name
      = some (if c1Players.length = 2 then "BTN/SB" else "BTN") :=
  c3_dead_button_no_sb_lowest_seat_is_button c1Players none []
    (by decide) (by decide) (by decide) (by decide) (by decide)
    (by intro d hd; cases hd) rfl

/-! ## C6 -/

/-- Concrete heads-up fixture: two active players, declared button on seat 1. -/
def c6Players : List Player :=
  [⟨"A", 1, false, none, true, none, "UNKNOWN"⟩,
   ⟨"B", 2, false, none, true, none, "UNKNOWN"⟩]

/-- C6 counterexample: in a two-handed hand the resolver labels the
button-side player with the combined string "BTN/SB", not "BTN" as the claim
states. -/
theorem c6_counterexample_heads_up_label :
    posOf (calculate_poker_positions c6Players (some 1) []) "A" = some "BTN/SB"
      ∧ posOf (calculate_poker_positions c6Players (some 1) []) "A" ≠ some "BTN" := by
  constructor
  · decide
  · decide

/-- C6 amended: for every two-handed hand whose declared button seat is
occupied by an active player, calculate_poker_positions labels the
button-side player with the combined label "BTN/SB" (not the single label
"BTN") and the other player "BB". -/
theorem c6_heads_up_btn_sb_combined_label
    (players : List Player) (actions : List Action) (p q : Player)
    (hlen2 : players.length = 2)
    (hndn : (players.map Player.name).Nodup)
    (hnds : (players.map Player.seatIndex).Nodup)
    (hnn : ∀ r ∈ players, r.name ≠ "")
    (hp : p ∈ players) (hq : q ∈ players) (hpq : p.name ≠ q.name) :
    posOf (calculate_poker_positions players (some p.seatIndex) actions) p.name
        = some "BTN/SB"
      ∧ posOf (calculate_poker_positions players (some p.seatIndex) actions) q.name
        = some "BB"
      ∧ ∀ nm, posOf (calculate_poker_positions players (some p.seatIndex) actions) nm
        ≠ some "BTN" := by
  have hplne : players ≠ [] := by
    intro h
    rw [h] at hlen2
    simp at hlen2
  have hperm := stableSortBy_perm (fun r => r.seatIndex) players
  have hpsp : p ∈ stableSortBy (fun r => r.seatIndex) players := hperm.mem_iff.mpr hp
  have hqsp : q ∈ stableSortBy (fun r => r.seatIndex) players := hperm.mem_iff.mpr hq
  have hndn2 : ((stableSortBy (fun r => r.seatIndex) players).map Player.name).Nodup :=
    (hperm.map Player.name).nodup_iff.mpr hndn
  have hnds2 : ((stableSortBy (fun r => r.seatIndex) players).map Player.seatIndex).Nodup :=
    (hperm.map Player.seatIndex).nodup_iff.mpr hnds
  have hlen : (stableSortBy (fun r => r.seatIndex) players).length = players.length :=
    hperm.length_eq
  have hlen2s : (2 : Nat) = (stableSortBy (fun r => r.seatIndex) players).length := by
    omega
  have hpne : p.name ≠ "" := hnn p hp
  have hbtn0 : declaredButton
      (pyDict (fun r => r.seatIndex) (fun r => r.name)
        (stableSortBy (fun r => r.seatIndex) players)) (some p.seatIndex)
      = some p.name := by
    show pyDict (fun r => r.seatIndex) (fun r => r.name)
      (stableSortBy (fun r => r.seatIndex) players) p.seatIndex = some p.name
    exact pyDict_of_mem_nodup (fun r => r.name) hnds2 hpsp
  have hdbf : deadButtonFallback (stableSortBy (fun r => r.seatIndex) players)
      (pyDict (fun r => r.name) (fun r => r.seatIndex)
        (stableSortBy (fun r => r.seatIndex) players))
      players.length (sbPlayerOf actions) (some p.name) = some (some p.name) := by
    rw [deadButtonFallback.eq_def]
    simp [optStrTruthy, hpne]
  obtain ⟨i, hi, hgi⟩ := List.getElem_of_mem hpsp
  obtain ⟨k, hk, hgk⟩ := List.getElem_of_mem hqsp
  have hgetDi : (stableSortBy (fun r => r.seatIndex) players).getD i dummyPlayer = p := by
    rw [List.getD_eq_getElem _ _ hi]
    exact hgi
  have hgetDk : (stableSortBy (fun r => r.seatIndex) players).getD k dummyPlayer = q := by
    rw [List.getD_eq_getElem _ _ hk]
    exact hgk
  have hik : i ≠ k := by
    intro h
    apply hpq
    rw [← hgetDi, ← hgetDk, h]
  have hi2 : i < 2 := by omega
  have hk2 : k < 2 := by omega
  have hr0 : (ringFrom (stableSortBy (fun r => r.seatIndex) players)
      (pyDict (fun r => r.name) (fun r => r.seatIndex)
        (stableSortBy (fun r => r.seatIndex) players)) 2 p.name).getD 0 ""
      = p.name := by
    conv_lhs => rw [← hgetDi]
    rw [ringFrom_getD hndn2 hnds2 hlen2s hi2 0 (by omega), Nat.add_zero,
      Nat.mod_eq_of_lt hi2, hgetDi]
  have hr1 : (ringFrom (stableSortBy (fun r => r.seatIndex) players)
      (pyDict (fun r => r.name) (fun r => r.seatIndex)
        (stableSortBy (fun r => r.seatIndex) players)) 2 p.name).getD 1 ""
      = q.name := by
    conv_lhs => rw [← hgetDi]
    rw [ringFrom_getD hndn2 hnds2 hlen2s hi2 1 (by omega)]
    have hk' : (i + 1) % 2 = k := by omega
    rw [hk', hgetDk]
  rw [calculate_eq_of_ne_nil players (some p.seatIndex) actions hplne, hbtn0, hdbf,
    Option.map_some']
  simp only [posOf, calcWithButton, optStrTruthy, ne_eq, hpne, not_false_eq_true,
    decide_True, if_true, Option.getD_some, hlen2]
  rw [assignPositions]
  simp only [reduceIte]
  rw [hr0, hr1]
  refine ⟨?_, ?_, ?_⟩
  · rw [posUpd_diff _ _ _ _ hpq, posUpd_same]
  · rw [posUpd_same]
  · intro nm
    simp only [posUpd, emptyPos]
    split_ifs <;> decide

/-- C6 amended witness: the concrete heads-up fixture, button on seat 1. -/
theorem c6_amended_witness :
    posOf (calculate_poker_positions c6Players (some 1) []) "A" = some "BTN/SB"
      ∧ posOf (calculate_poker_positions c6Players (some 1) []) "B" = some "BB"
      ∧ posOf (calculate_poker_positions c6Players (some 1) []) "A" ≠ some "BTN" :=
  have h := c6_heads_up_btn_sb_combined_label c6Players []
    ⟨"A", 1, false, none, true, none, "UNKNOWN"⟩
    ⟨"B", 2, false, none, true, none, "UNKNOWN"⟩
    rfl (by decide) (by decide) (by decide) (by decide) (by decide) (by decide)
  ⟨h.1, h.2.1, h.2.2 "A"⟩

/-! ## C4 -/

/-- Concrete fixture for the unresolvable-button postflop scenario: three
occupied seats, no declared button, one flop action by the highest seat. -/
def c4Players : List Player :=
  [⟨"A", 1, false, none, true, none, "UNKNOWN"⟩,
   ⟨"B", 2, false, none, true, none, "UNKNOWN"⟩,
   ⟨"C", 3, false, none, true, none, "UNKNOWN"⟩]

/-- The single postflop action of the unresolvable-button fixture. -/
def c4Actions : List Action := [⟨"C", "checks", none, "flop"⟩]

/-- C4 counterexample: with the declared button seat absent,
infer_implicit_folds does not pass the postflop actions through unmodified:
it guesses the lowest occupied seat as the button and inserts a synthetic
fold for the skipped seat-2 player on the flop. -/
theorem c4_counterexample_inserts_postflop_fold :
    infer_implicit_folds c4Actions c4Players none none none
        = [⟨"B", "folds", none, "flop"⟩, ⟨"C", "checks", none, "flop"⟩]
      ∧ infer_implicit_folds c4Actions c4Players none none none ≠ c4Actions := by
  constructor
  · decide
  · decide

lemma resolveDealer_unresolved (ds : Option Nat) (ss : List Nat)
    (hds : ∀ d, ds = some d → d ∉ ss) :
    resolveDealer ds ss = ss.getD 0 0 := by
  cases ds with
  | none => rfl
  | some d => simp [resolveDealer, hds d rfl]

lemma resolveDealer_head (ss : List Nat) (hss : ss ≠ []) :
    resolveDealer (some (ss.getD 0 0)) ss = ss.getD 0 0 := by
  have hlen : 0 < ss.length := List.length_pos.mpr hss
  simp [resolveDealer, getD_mem_of_lt ss 0 0 hlen]

/-- C4 amended: when the declared button seat cannot be resolved to an
occupied seat (absent or unmatched), infer_implicit_folds does not pass the
postflop actions through unmodified; it behaves exactly as if the button were
the lowest occupied seat (the fallback of lines 625-629), and may therefore
insert synthetic folds on postflop streets. -/
theorem c4_unresolved_button_lowest_seat_fallback
    (actions : List Action) (players : List Player) (dealer_seat : Option Nat)
    (sb_amount bb_amount : Option ℚ)
    (hds : ∀ d, dealer_seat = some d → d ∉ players.map (fun p => p.seatIndex)) :
    infer_implicit_folds actions players dealer_seat sb_amount bb_amount
      = infer_implicit_folds actions players
          (some ((stableSortBy id (players.map (fun p => p.seatIndex))).getD 0 0))
          sb_amount bb_amount := by
  by_cases hcond : actions = [] ∨ players = []
  · simp only [infer_implicit_folds, if_pos hcond]
  · have hpl : players ≠ [] := fun h => hcond (Or.inr h)
    have hperm := stableSortBy_perm id (players.map (fun p => p.seatIndex))
    have hss : stableSortBy id (players.map (fun p => p.seatIndex)) ≠ [] := by
      intro h
      have := hperm.length_eq
      rw [h] at this
      simp at this
      exact hpl (List.length_eq_zero.mp this.symm)
    have hds2 : ∀ d, dealer_seat = some d →
        d ∉ stableSortBy id (players.map (fun p => p.seatIndex)) :=
      fun d hd hmem => hds d hd (hperm.subset hmem)
    simp only [infer_implicit_folds, if_neg hcond]
    rw [resolveDealer_unresolved dealer_seat _ hds2,
      resolveDealer_head _ hss]

/-- C4 amended witness: the concrete unresolvable-button fixture. -/
theorem c4_amended_witness :
    infer_implicit_folds c4Actions c4Players none none none
      = infer_implicit_folds c4Actions c4Players
          (some ((stableSortBy id (c4Players.map (fun p => p.seatIndex))).getD 0 0))
          none none :=
  c4_unresolved_button_lowest_seat_fallback c4Actions c4Players none none none
    (fun d hd => by cases hd)

/-! ## C2 -/

/-- Every action emitted by the skipped-player loop is a synthetic fold with
no amount. -/
lemma insertFoldsLoop_zero (ctx : RingCtx) (chunk : List Action) (street : String)
    (a : Action) (actualSeat : Nat) (st : String → String) (e : Option Nat) :
    insertFoldsLoop ctx chunk street a actualSeat 0 st e = ([], st, e) := rfl

lemma insertFoldsLoop_succ_none (ctx : RingCtx) (chunk : List Action) (street : String)
    (a : Action) (actualSeat fuel : Nat) (st : String → String) :
    insertFoldsLoop ctx chunk street a actualSeat (fuel + 1) st none = ([], st, none) := rfl

lemma insertFoldsLoop_succ_some (ctx : RingCtx) (chunk : List Action) (street : String)
    (a : Action) (actualSeat fuel : Nat) (st : String → String) (es : Nat) :
    insertFoldsLoop ctx chunk street a actualSeat (fuel + 1) st (some es)
      = if es = actualSeat then ([], st, some es)
        else
          let skippedName := ((ctx.seatToPlayer es).getD dummyPlayer).name
          let curIdx := chunk.findIdx (fun b => b = a)
          let actsLater := (chunk.drop curIdx).any (fun fa => fa.player = skippedName)
          let ins : List Action :=
            if actsLater then [] else [⟨skippedName, "folds", none, street⟩]
          let st' : String → String :=
            if actsLater then st
            else fun n => if n = skippedName then "folded" else st n
          let e' := get_next_seat ctx st' es
          let r := insertFoldsLoop ctx chunk street a actualSeat fuel st' e'
          (ins ++ r.1, r.2.1, r.2.2) := rfl

lemma insertFoldsLoop_all_folds (ctx : RingCtx) (chunk : List Action)
    (street : String) (a : Action) (actualSeat : Nat) :
    ∀ fuel st e, ∀ x ∈ (insertFoldsLoop ctx chunk street a actualSeat fuel st e).1,
      x.action = "folds" ∧ x.amount = none := by
  intro fuel
  induction fuel with
  | zero => intro st e x hx; simp [insertFoldsLoop_zero] at hx
  | succ fuel ih =>
    intro st e x hx
    cases e with
    | none => simp [insertFoldsLoop_succ_none] at hx
    | some es =>
      rw [insertFoldsLoop_succ_some] at hx
      by_cases heq : es = actualSeat
      · simp [heq] at hx
      · simp only [heq, if_false, List.mem_append] at hx
        rcases hx with hx | hx
        · by_cases hal : (chunk.drop (chunk.findIdx (fun b => b = a))).any
              (fun fa => fa.player = ((ctx.seatToPlayer es).getD dummyPlayer).name) = true
          · simp [hal] at hx
          · simp only [hal, Bool.false_eq_true, if_false, List.mem_singleton] at hx
            subst hx
            exact ⟨rfl, rfl⟩
        · exact ih _ _ x hx

/-- handleAction emits a (possibly empty) block of synthetic folds followed
by the action itself. -/
lemma handleAction_out (ctx : RingCtx) (street : String) (chunk : List Action)
    (st : String → String) (e : Option Nat) (a : Action) :
    ∃ ins, (handleAction ctx street chunk st e a).1 = ins ++ [a] ∧
      ∀ x ∈ ins, x.action = "folds" ∧ x.amount = none := by
  by_cases hblind : a.action = "posts_sb" ∨ a.action = "posts_bb"
  · exact ⟨[], by simp [handleAction, hblind], by simp⟩
  · cases hseat : ctx.nameToSeat a.player with
    | none => exact ⟨[], by simp [handleAction, hblind, hseat], by simp⟩
    | some s =>
      cases e with
      | none => exact ⟨[], by simp [handleAction, hblind, hseat], by simp⟩
      | some es =>
        exact ⟨(insertFoldsLoop ctx chunk street a s ctx.sortedSeats.length st (some es)).1,
          by simp [handleAction, hblind, hseat],
          insertFoldsLoop_all_folds ctx chunk street a s _ st (some es)⟩

/-- The chunk loop emits the chunk's own actions in order (as a sublist) and
everything else it emits is a synthetic fold. -/
lemma processChunkActions_props (ctx : RingCtx) (street : String) (chunk : List Action) :
    ∀ rest st e,
      rest.Sublist (processChunkActions ctx street chunk rest st e).1 ∧
      ∀ x ∈ (processChunkActions ctx street chunk rest st e).1,
        x ∈ rest ∨ (x.action = "folds" ∧ x.amount = none) := by
  intro rest
  induction rest with
  | nil => intro st e; simp [processChunkActions]
  | cons a rest ih =>
    intro st e
    obtain ⟨ins, hins, hfolds⟩ := handleAction_out ctx street chunk st e a
    have hrec := ih (handleAction ctx street chunk st e a).2.1
      (handleAction ctx street chunk st e a).2.2
    constructor
    · show (a :: rest).Sublist _
      rw [processChunkActions]
      simp only [hins]
      have h1 : (a :: rest).Sublist
          (a :: (processChunkActions ctx street chunk rest
            (handleAction ctx street chunk st e a).2.1
            (handleAction ctx street chunk st e a).2.2).1) :=
        hrec.1.cons₂ a
      have h2 : (a :: (processChunkActions ctx street chunk rest
            (handleAction ctx street chunk st e a).2.1
            (handleAction ctx street chunk st e a).2.2).1).Sublist
          (ins ++ [a] ++ (processChunkActions ctx street chunk rest
            (handleAction ctx street chunk st e a).2.1
            (handleAction ctx street chunk st e a).2.2).1) := by
        rw [List.append_assoc, List.singleton_append]
        exact List.sublist_append_right ins _
      exact h1.trans h2
    · intro x hx
      rw [processChunkActions] at hx
      simp only [hins, List.append_assoc, List.singleton_append,
        List.mem_append, List.mem_cons] at hx
      rcases hx with hx | hx | hx
      · exact Or.inr (hfolds x hx)
      · exact Or.inl (by simp [hx])
      · rcases hrec.2 x hx with h | h
        · exact Or.inl (List.mem_cons_of_mem a h)
        · exact Or.inr h

/-- The street loop preserves the concatenation of the chunks as a sublist
and only adds synthetic folds. -/
lemma processChunks_props (ctx : RingCtx) (dealerIdx : Nat) :
    ∀ chunks st,
      ((chunks.map Prod.snd).flatten).Sublist (processChunks ctx dealerIdx chunks st) ∧
      ∀ x ∈ processChunks ctx dealerIdx chunks st,
        x ∈ (chunks.map Prod.snd).flatten ∨ (x.action = "folds" ∧ x.amount = none) := by
  intro chunks
  induction chunks with
  | nil => intro st; simp [processChunks]
  | cons c rest ih =>
    intro st
    obtain ⟨street, chunk⟩ := c
    have hchunk := processChunkActions_props ctx street chunk chunk st
      (initialExpected ctx dealerIdx street chunk st)
    have hrec := ih (processChunkActions ctx street chunk chunk st
      (initialExpected ctx dealerIdx street chunk st)).2
    constructor
    · rw [processChunks]
      simp only [List.map_cons, List.flatten_cons]
      exact hchunk.1.append hrec.1
    · intro x hx
      rw [processChunks] at hx
      simp only [List.mem_append] at hx
      simp only [List.map_cons, List.flatten_cons, List.mem_append]
      rcases hx with hx | hx
      · rcases hchunk.2 x hx with h | h
        · exact Or.inl (Or.inl h)
        · exact Or.inr h
      · rcases hrec.2 x hx with h | h
        · exact Or.inl (Or.inr h)
        · exact Or.inr h

/-- The per-street grouping loses no action: joining the chunks recovers the
original list. -/
lemma groupStreetsGo_flatten (rest : List Action) :
    ∀ cur chunk, ((groupStreetsGo cur chunk rest).map Prod.snd).flatten = chunk ++ rest := by
  induction rest with
  | nil => intro cur chunk; simp [groupStreetsGo]
  | cons a rest ih =>
    intro cur chunk
    rw [groupStreetsGo]
    by_cases h : a.street ≠ cur
    · rw [if_pos h]
      simp only [List.map_cons, List.flatten_cons, ih]
      simp
    · rw [if_neg h, ih]
      simp

lemma groupStreets_flatten (actions : List Action) :
    ((groupStreets actions).map Prod.snd).flatten = actions := by
  rw [groupStreets, groupStreetsGo_flatten]
  rfl

/-- C2: for every input action list, the Turn-Order Reconstructor's output
contains the original actions as an order-preserving subsequence (no original
action is removed or reordered), and every action of the output that is not
an original action is a synthetic fold with no amount. -/
theorem c2_reconstruction_preserves_original_actions
    (actions : List Action) (players : List Player) (dealer_seat : Option Nat)
    (sb_amount bb_amount : Option ℚ) :
    actions.Sublist (infer_implicit_folds actions players dealer_seat sb_amount bb_amount)
      ∧ ∀ x ∈ infer_implicit_folds actions players dealer_seat sb_amount bb_amount,
          x ∈ actions ∨ (x.action = "folds" ∧ x.amount = none) := by
  by_cases hcond : actions = [] ∨ players = []
  · rw [infer_implicit_folds, if_pos hcond]
    exact ⟨List.Sublist.refl actions, fun x hx => Or.inl hx⟩
  · rw [infer_implicit_folds, if_neg hcond]
    have h := processChunks_props
      ⟨pyDict (fun p => p.name) (fun p => p.seatIndex) players,
        fun s => pyDict (fun p => p.seatIndex) (fun p => p) players s,
        stableSortBy id (players.map (fun p => p.seatIndex))⟩
      ((stableSortBy id (players.map (fun p => p.seatIndex))).indexOf
        (resolveDealer dealer_seat (stableSortBy id (players.map (fun p => p.seatIndex)))))
      (groupStreets actions) initialStatus
    rw [groupStreets_flatten] at h
    exact h

/-- C2 witness: a concrete instance of the preservation statement on the
unresolvable-button fixture, whose output contains an inserted fold. -/
theorem c2_witness :
    c4Actions.Sublist (infer_implicit_folds c4Actions c4Players none none none)
      ∧ ((⟨"B", "folds", none, "flop"⟩ : Action) ∈ c4Actions ∨
          ((⟨"B", "folds", none, "flop"⟩ : Action).action = "folds" ∧
            (⟨"B", "folds", none, "flop"⟩ : Action).amount = none)) :=
  ⟨(c2_reconstruction_preserves_original_actions c4Actions c4Players none
      none none).1,
   (c2_reconstruction_preserves_original_actions c4Actions c4Players none
      none none).2 ⟨"B", "folds", none, "flop"⟩ (by decide)⟩

/-! ## C7 -/

lemma pyDedup_mem_aux (l : List String) :
    ∀ acc x, (x ∈ acc ∨ x ∈ l) →
      x ∈ l.foldl (fun acc n => if n ∈ acc then acc else acc ++ [n]) acc := by
  induction l with
  | nil =>
    intro acc x hx
    rcases hx with hx | hx
    · exact hx
    · simp at hx
  | cons a t ih =>
    intro acc x hx
    rw [List.foldl_cons]
    apply ih
    by_cases ha : a ∈ acc
    · rw [if_pos ha]
      rcases hx with hx | hx
      · exact Or.inl hx
      · rcases List.mem_cons.mp hx with hx | hx
        · exact Or.inl (hx ▸ ha)
        · exact Or.inr hx
    · rw [if_neg ha]
      rcases hx with hx | hx
      · exact Or.inl (List.mem_append_left _ hx)
      · rcases List.mem_cons.mp hx with hx | hx
        · exact Or.inl (by simp [hx])
        · exact Or.inr hx

lemma mem_pyDedup_of_mem {l : List String} {x : String} (hx : x ∈ l) :
    x ∈ pyDedup l :=
  pyDedup_mem_aux l [] x (Or.inr hx)

/-- Every player record built by the smart-seating loop carries the
find?-derived fields of its name; only `seatIndex` is newly computed and
`isActive` is reset to true. -/
lemma seatLoop_mem (players1 : List Player) (heroName : Option String) :
    ∀ names assigned used, ∀ q ∈ seatLoop players1 heroName names assigned used,
      q.name ∈ names ∧
      q.isHero = heroFlagFor players1 heroName q.name ∧
      q.cards = cardsFor players1 q.name ∧
      q.isActive = true ∧
      q.stack = stackFor players1 q.name ∧
      q.position = positionFor players1 q.name := by
  intro names
  induction names with
  | nil => intro assigned used q hq; simp [seatLoop] at hq
  | cons n rest ih =>
    intro assigned used q hq
    rw [seatLoop] at hq
    rcases List.mem_cons.mp hq with hq | hq
    · subst hq
      exact ⟨List.mem_cons_self n rest, rfl, rfl, rfl, rfl, rfl⟩
    · obtain ⟨h1, h2⟩ := And.intro (ih _ _ q hq).1 (ih _ _ q hq).2
      exact ⟨List.mem_cons_of_mem n h1, h2⟩

/-- Every listed name yields a player record in the smart-seating loop. -/
lemma seatLoop_exists (players1 : List Player) (heroName : Option String) :
    ∀ names assigned used n, n ∈ names →
      ∃ q ∈ seatLoop players1 heroName names assigned used, q.name = n := by
  intro names
  induction names with
  | nil => intro assigned used n hn; simp at hn
  | cons m rest ih =>
    intro assigned used n hn
    rw [seatLoop]
    rcases List.mem_cons.mp hn with hn | hn
    · subst hn
      exact ⟨_, List.mem_cons_self _ _, rfl⟩
    · obtain ⟨q, hq, hqn⟩ := ih _ _ n hn
      exact ⟨q, List.mem_cons_of_mem _ hq, hqn⟩

/-- C7 counterexample: Smart Seating does not leave the hero flag unchanged:
a player whose extracted flag is false but whose name matches the "Dealt to"
hero name has the flag rewritten to true by the reassignment step. -/
theorem c7_counterexample_hero_flag_rewritten :
    (smart_seating [⟨"Alice", 3, false, none, true, none, "BB"⟩] [] (some "Alice")).map
        (fun p => p.isHero) = [true]
      ∧ (⟨"Alice", 3, false, none, true, none, "BB"⟩ : Player).isHero = false := by
  constructor
  · decide
  · decide

/-- C7 amended: for every player present before Seat Reassignment, the
reassignment step preserves the previously computed position label, stack and
cards, and rewrites `seatIndex`; the hero flag is not preserved but
recomputed as the disjunction of the previous flag with the "Dealt to"
hero-name match and the hero-name conventions (so it can be promoted from
false to true, never cleared).  `isActive` is reset to true, its only
possible value before this step in the pipeline. -/
theorem c7_smart_seating_preserves_fields
    (players1 : List Player) (actions : List Action) (heroName : Option String)
    (hnd : (players1.map Player.name).Nodup) (p : Player) (hp : p ∈ players1) :
    ((smart_seating players1 actions heroName).find? (fun q => q.name = p.name)).map
        (fun q => (q.stack, q.cards, q.position, q.isHero, q.isActive))
      = some (p.stack, p.cards, p.position,
          ((match heroName with
            | some h => decide (h ≠ "") && decide (p.name = h)
            | none => false) || p.isHero || decide (p.name = "Hero")
            || containsStr p.name "_Hero"), true) := by
  have hfind : players1.find? (fun q => q.name = p.name) = some p :=
    @find?_key_eq_some_of_nodup Player String _ Player.name players1 p hnd hp
  have hnmem : p.name ∈ pyDedup
      (players1.map (fun r => r.name) ++ actions.map (fun a => a.player)) :=
    mem_pyDedup_of_mem
      (List.mem_append_left _ (List.mem_map_of_mem (fun r => r.name) hp))
  obtain ⟨q0, hq0, hq0n⟩ := seatLoop_exists players1 heroName
    (pyDedup (players1.map (fun r => r.name) ++ actions.map (fun a => a.player)))
    (assignRoleSeats (computeRoles
      (pyDedup (players1.map (fun r => r.name) ++ actions.map (fun a => a.player)))
      actions)).1
    (assignRoleSeats (computeRoles
      (pyDedup (players1.map (fun r => r.name) ++ actions.map (fun a => a.player)))
      actions)).2
    p.name hnmem
  have hsome : ((smart_seating players1 actions heroName).find?
      (fun q => q.name = p.name)).isSome := by
    rw [List.find?_isSome]
    refine ⟨q0, ?_, by simp [hq0n]⟩
    rw [smart_seating]
    exact hq0
  cases hfq : (smart_seating players1 actions heroName).find?
      (fun q => q.name = p.name) with
  | none => rw [hfq] at hsome; simp at hsome
  | some q =>
    have hqpred : q.name = p.name := by
      have := List.find?_some hfq
      simpa using this
    have hqmem : q ∈ smart_seating players1 actions heroName :=
      List.mem_of_find?_eq_some hfq
    rw [smart_seating] at hqmem
    obtain ⟨-, hhero, hcards, hact, hstack, hpos⟩ :=
      seatLoop_mem players1 heroName _ _ _ q hqmem
    rw [Option.map_some']
    congr 1
    rw [hstack, hcards, hpos, hhero, hact, hqpred]
    simp only [stackFor, cardsFor, positionFor, heroFlagFor, hfind]

/-- C7 amended witness: the concrete hero-promotion fixture; stack, cards and
position are carried over, the hero flag is promoted by the Dealt-to match. -/
theorem c7_amended_witness :
    ((smart_seating [⟨"Alice", 3, false, none, true, none, "BB"⟩] [] (some "Alice")).find?
        (fun q => q.name = "Alice")).map
        (fun q => (q.stack, q.cards, q.position, q.isHero, q.isActive))
      = some ((none : Option ℚ), (none : Option (List String)), "BB",
          ((match some "Alice" with
            | some h => decide (h ≠ "") && decide ("Alice" = h)
            | none => false) || false || decide ("Alice" = "Hero")
            || containsStr "Alice" "_Hero"), true) :=
  c7_smart_seating_preserves_fields
    [⟨"Alice", 3, false, none, true, none, "BB"⟩] [] (some "Alice")
    (by decide) ⟨"Alice", 3, false, none, true, none, "BB"⟩ (by decide)

/-! ## C8, C10, C5: the assembled HandState -/

lemma cardsActivePass_preserves (heroCards : Option (List String))
    (shown : List (String × List String)) (folded : List String) (p : Player) :
    (cardsActivePass heroCards shown folded p).name = p.name ∧
    (cardsActivePass heroCards shown folded p).isHero = p.isHero ∧
    (cardsActivePass heroCards shown folded p).stack = p.stack :=
  ⟨rfl, rfl, rfl⟩

/-- Every assembled player comes from a smart-seated player with the same
name and hero flag, and with the stack passed through the blind-relative
normalization exactly when it applies. -/
lemma pipelineRest_mem_players (players1 : List Player) (actions : List Action)
    (sb bb : Option ℚ) (heroName : Option String) (heroCards : Option (List String))
    (shown : List (String × List String)) (board : List String) (street : String)
    (potE : Option ℚ) (q : Player)
    (hq : q ∈ (pipelineRest players1 actions sb bb heroName heroCards shown board
        street potE).players) :
    ∃ q2 ∈ smart_seating players1 actions heroName,
      q.name = q2.name ∧ q.isHero = q2.isHero ∧
      q.stack = (if bbNormActive bb = true
        then q2.stack.map (fun s => pyRound1 (s / bb.getD 1))
        else q2.stack) := by
  simp only [pipelineRest] at hq
  by_cases hnorm : bbNormActive bb = true
  · rw [if_pos hnorm] at hq
    simp only [if_pos hnorm]
    obtain ⟨q4, hq4, rfl⟩ := List.mem_map.mp hq
    by_cases hshift : 0 < minSeatOf ((smart_seating players1 actions heroName).map
        (cardsActivePass heroCards shown (identify_folded_players actions shown)))
    · rw [if_pos hshift] at hq4
      obtain ⟨q3, hq3, rfl⟩ := List.mem_map.mp hq4
      obtain ⟨q2, hq2, rfl⟩ := List.mem_map.mp hq3
      exact ⟨q2, hq2, rfl, rfl, rfl⟩
    · rw [if_neg hshift] at hq4
      obtain ⟨q2, hq2, rfl⟩ := List.mem_map.mp hq4
      exact ⟨q2, hq2, rfl, rfl, rfl⟩
  · rw [if_neg hnorm] at hq
    simp only [if_neg hnorm]
    by_cases hshift : 0 < minSeatOf ((smart_seating players1 actions heroName).map
        (cardsActivePass heroCards shown (identify_folded_players actions shown)))
    · rw [if_pos hshift] at hq
      obtain ⟨q3, hq3, rfl⟩ := List.mem_map.mp hq
      obtain ⟨q2, hq2, rfl⟩ := List.mem_map.mp hq3
      exact ⟨q2, hq2, rfl, rfl, rfl⟩
    · rw [if_neg hshift] at hq
      obtain ⟨q2, hq2, rfl⟩ := List.mem_map.mp hq
      exact ⟨q2, hq2, rfl, rfl, rfl⟩

/-- Attaching positions changes no name, hero flag or stack, so the
hero-flag disjunction over players1 equals the one over players0. -/
lemma heroFlagFor_map_position (players0 : List Player)
    (posMap : String → Option String) (heroName : Option String) (n : String) :
    heroFlagFor (players0.map
        (fun p => { p with position := (posMap p.name).getD "UNKNOWN" })) heroName n
      = heroFlagFor players0 heroName n := by
  rw [heroFlagFor.eq_def, heroFlagFor.eq_def, List.find?_map]
  have hpred : ((fun (q : Player) => decide (q.name = n)) ∘
      (fun p => { p with position := (posMap p.name).getD "UNKNOWN" }))
      = (fun (q : Player) => decide (q.name = n)) := rfl
  rw [hpred]
  cases players0.find? (fun q => decide (q.name = n)) <;> rfl

/-- Same for the carried stack. -/
lemma stackFor_map_position (players0 : List Player)
    (posMap : String → Option String) (n : String) :
    stackFor (players0.map
        (fun p => { p with position := (posMap p.name).getD "UNKNOWN" })) n
      = stackFor players0 n := by
  rw [stackFor.eq_def, stackFor.eq_def, List.find?_map]
  have hpred : ((fun (q : Player) => decide (q.name = n)) ∘
      (fun p => { p with position := (posMap p.name).getD "UNKNOWN" }))
      = (fun (q : Player) => decide (q.name = n)) := rfl
  rw [hpred]
  cases players0.find? (fun q => decide (q.name = n)) <;> rfl

/-- The pot field of the assembled HandState, read off the definition. -/
lemma parse_core_with_pot (posMap : String → Option String) (players0 : List Player)
    (actions0 : List Action) (dealer0 : Option Nat) (sb bb : Option ℚ)
    (heroName : Option String) (heroCards : Option (List String))
    (shown : List (String × List String)) (board : List String) (street : String)
    (potE : Option ℚ) :
    (parse_core_with posMap players0 actions0 dealer0 sb bb heroName heroCards shown
        board street potE).pot
      = (if bbNormActive bb = true
         then match potE with
           | some pp => if pp ≠ 0 then some (pyRound1 (pp / bb.getD 1)) else some pp
           | none => none
         else potE).getD 0 := rfl

/-- C10: for every combination of extractor outputs, the assembled
HandState's pot field is a number (the field has type ℚ, from `pot or 0`);
in particular when the pot extractor returns absent, the output pot is 0. -/
theorem c10_absent_pot_defaults_to_zero (posMap : String → Option String)
    (players0 : List Player) (actions0 : List Action) (dealer0 : Option Nat)
    (sb bb : Option ℚ) (heroName : Option String) (heroCards : Option (List String))
    (shown : List (String × List String)) (board : List String) (street : String) :
    (parse_core_with posMap players0 actions0 dealer0 sb bb heroName heroCards shown
        board street none).pot = 0 := by
  rw [parse_core_with_pot]
  by_cases hnorm : bbNormActive bb = true
  · rw [if_pos hnorm]
    rfl
  · rw [if_neg hnorm]
    rfl

/-- C8 counterexample: a parsed hand with no "Dealt to" line and no
hero-named player assembles with zero hero flags, not exactly one. -/
theorem c8_counterexample_zero_heroes :
    ((parse_for_replayer_core
        [⟨"Alice", 1, false, none, true, none, "UNKNOWN"⟩,
         ⟨"Bob", 2, false, none, true, none, "UNKNOWN"⟩]
        [] (some 1) none none none none [] [] "preflop" none).map
      (fun hs => (hs.players.filter (fun p => p.isHero)).length)) = some 0
    ∧ ((parse_for_replayer_core
        [⟨"Alice", 1, false, none, true, none, "UNKNOWN"⟩,
         ⟨"Bob", 2, false, none, true, none, "UNKNOWN"⟩]
        [] (some 1) none none none none [] [] "preflop" none).map
      (fun hs => (hs.players.filter (fun p => p.isHero)).length)) ≠ some 1 := by
  constructor
  · decide
  · decide

/-- C8 amended: in the assembled HandState, a player's isHero flag is exactly
the hero-convention disjunction heroFlagFor over the extracted players: the
"Dealt to" hero-name match, or the extraction-time flag of the extracted
player of the same name, or the literal name "Hero", or the "_Hero"
substring.  Zero heroes or several heroes are possible; exactly one is not
guaranteed. -/
theorem c8_hero_flag_is_convention_disjunction
    (posMap : String → Option String) (players0 : List Player)
    (actions0 : List Action) (dealer0 : Option Nat) (sb bb : Option ℚ)
    (heroName : Option String) (heroCards : Option (List String))
    (shown : List (String × List String)) (board : List String) (street : String)
    (potE : Option ℚ) (q : Player)
    (hq : q ∈ (parse_core_with posMap players0 actions0 dealer0 sb bb heroName
        heroCards shown board street potE).players) :
    q.isHero = heroFlagFor players0 heroName q.name := by
  simp only [parse_core_with] at hq
  obtain ⟨q2, hq2, hname, hhero, -⟩ :=
    pipelineRest_mem_players _ _ _ _ _ _ _ _ _ _ q hq
  rw [smart_seating] at hq2
  obtain ⟨-, hflag, -, -, -, -⟩ := seatLoop_mem _ _ _ _ _ q2 hq2
  rw [hhero, hflag, ← hname, heroFlagFor_map_position players0 posMap heroName q.name]

/-- Concrete single-player fixture whose extracted player carries the hero
flag. -/
def c8Players : List Player := [⟨"Hero", 1, true, none, true, none, "UNKNOWN"⟩]

/-- C8 amended witness: on the concrete fixture the assembled hero flag
equals the convention disjunction. -/
theorem c8_amended_witness :
    ((parse_core_with emptyPos c8Players [] (some 1) none none none none [] []
        "preflop" none).players.getD 0 dummyPlayer).isHero
      = heroFlagFor c8Players none
          ((parse_core_with emptyPos c8Players [] (some 1) none none none none [] []
            "preflop" none).players.getD 0 dummyPlayer).name :=
  c8_hero_flag_is_convention_disjunction emptyPos c8Players
    [] (some 1) none none none none [] [] "preflop" none _
    (getD_mem_of_lt _ 0 dummyPlayer (by decide))

/-- C5 counterexample: the claim's normalization example is wrong for the
code's rounding rule: round(65.27 / 0.25, 1) is 261.1, not 261.08. -/
theorem c5_counterexample_rounding_value :
    pyRound1 ((6527/100 : ℚ) / (1/4)) = 2611/10
      ∧ pyRound1 ((6527/100 : ℚ) / (1/4)) ≠ 26108/100 := by
  constructor
  · norm_num [pyRound1, pyRoundInt, ratFloor]
  · norm_num [pyRound1, pyRoundInt, ratFloor]

/-- C5 amended: whenever a big blind b > 0 is extracted, Hand Assembly
rescales every known player stack (stackFor of the extracted players) by
dividing by b and rounding to one decimal place with Python's round (round
half to even) — so 65.27 at bb = 0.25 normalizes to 261.1, not 261.08 — and
likewise the pot when it was extracted and nonzero. -/
theorem c5_stacks_and_pot_normalized_by_bb
    (posMap : String → Option String) (players0 : List Player)
    (actions0 : List Action) (dealer0 : Option Nat) (sb : Option ℚ)
    (heroName : Option String) (heroCards : Option (List String))
    (shown : List (String × List String)) (board : List String) (street : String)
    (potE : Option ℚ) (b : ℚ) (hb : 0 < b) :
    (∀ q ∈ (parse_core_with posMap players0 actions0 dealer0 sb (some b) heroName
        heroCards shown board street potE).players,
      q.stack = (stackFor players0 q.name).map (fun s => pyRound1 (s / b)))
    ∧ (∀ pp, potE = some pp → pp ≠ 0 →
        (parse_core_with posMap players0 actions0 dealer0 sb (some b) heroName
          heroCards shown board street potE).pot = pyRound1 (pp / b)) := by
  have hnorm : bbNormActive (some b) = true := by
    simp [bbNormActive, hb, ne_of_gt hb]
  constructor
  · intro q hq
    simp only [parse_core_with] at hq
    obtain ⟨q2, hq2, hname, -, hstack⟩ :=
      pipelineRest_mem_players _ _ _ _ _ _ _ _ _ _ q hq
    rw [if_pos hnorm] at hstack
    rw [smart_seating] at hq2
    obtain ⟨-, -, -, -, hstack2, -⟩ := seatLoop_mem _ _ _ _ _ q2 hq2
    rw [hstack, hstack2, ← hname, stackFor_map_position players0 posMap q.name]
    rfl
  · intro pp hpp hppne
    rw [parse_core_with_pot, if_pos hnorm, hpp]
    simp only [hppne, ne_eq, not_false_eq_true, if_true]
    rfl

/-- Concrete single-player fixture with the claim's raw stack value. -/
def c5Players : List Player := [⟨"P", 1, false, none, true, some (6527/100), "UNKNOWN"⟩]

/-- C5 amended witness: a one-player hand with stack 65.27 and an extracted
pot, bb = 2; the assembled stack and pot follow the divide-and-round rule,
and the rounding rule evaluates the claim's own 65.27/0.25 example
to 261.1. -/
theorem c5_amended_witness :
    ((parse_core_with emptyPos c5Players [] (some 1) none (some 2) none none [] []
        "preflop" (some 5)).players.getD 0 dummyPlayer).stack
      = (stackFor c5Players
          ((parse_core_with emptyPos c5Players [] (some 1) none (some 2) none none [] []
            "preflop" (some 5)).players.getD 0 dummyPlayer).name).map
          (fun s => pyRound1 (s / 2))
    ∧ (parse_core_with emptyPos c5Players [] (some 1) none (some 2) none none [] []
        "preflop" (some 5)).pot = pyRound1 (5 / 2)
    ∧ pyRound1 ((6527/100 : ℚ) / (1/4)) = 2611/10 := by
  refine ⟨?_, ?_, ?_⟩
  · exact (c5_stacks_and_pot_normalized_by_bb emptyPos c5Players
      [] (some 1) none none none [] [] "preflop" (some 5) 2 (by norm_num)).1 _
      (getD_mem_of_lt _ 0 dummyPlayer (by decide))
  · exact (c5_stacks_and_pot_normalized_by_bb emptyPos c5Players
      [] (some 1) none none none [] [] "preflop" (some 5) 2 (by norm_num)).2 5 rfl
      (by norm_num)
  · norm_num [pyRound1, pyRoundInt, ratFloor]

end Replayer
